import Mathlib

/-!
# Verification of the CivicScan web viewer PCI / segment pipeline

A shallow embedding, over the rationals, of the computational core of the
repository: the ASTM deduct-value tables with piecewise-linear interpolation
and the iterative multiple-deduct correction (src/utils/astmDeductTables.ts),
the power-law PCI estimator (src/utils/pciCalculator.ts), and the
frame-aggregation / segment-building logic of src/app/map/page.tsx.

JavaScript numbers are modelled as rationals (the algorithms use only
field operations, comparisons, floor/round, so rational arithmetic is exact
on the stated input domains).  Math.pow is kept as an explicit function
parameter wherever it occurs, since it is the only transcendental operation.
-/

set_option allowUnsafeReducibility true

attribute [local semireducible] Rat.add Rat.mul Rat.div Rat.sub Rat.neg Rat.inv

namespace CivicScan

/-- JS Math.min on two numbers (an if-then-else form that the kernel can
evaluate on concrete rationals). -/
def jsMin (a b : ℚ) : ℚ := if b ≤ a then b else a

/-- JS Math.max on two numbers. -/
def jsMax (a b : ℚ) : ℚ := if a ≤ b then b else a

/-- JS Math.round: round half toward positive infinity. -/
def jsRound (x : ℚ) : ℤ := ⌊x + 1 / 2⌋

/-- Math.round(x * 10) / 10 — round to one decimal, as used by the PCI code. -/
def round1 (x : ℚ) : ℚ := (jsRound (x * 10) : ℚ) / 10

/-- First non-none element of a list of options (JS "a || b || c" chains on
nullable slots). -/
def firstSome {α : Type} : List (Option α) → Option α :=
  fun l => l.foldl (fun a b => a <|> b) none

/-! ## astmDeductTables.ts : static tables -/

inductive SeverityLevel | Low | Medium | High
deriving DecidableEq, Repr

inductive DefectType | transverse | longitudinal | alligator | pothole
deriving DecidableEq, Repr

/-- TRANSVERSE_DEDUCT from astmDeductTables.ts (object literal written with
keys in ascending numeric order, which is also the JS enumeration order). -/
def TRANSVERSE_DEDUCT : SeverityLevel → List (ℚ × ℚ)
  | .Low => [(0, 0), (1, 2), (2, 4), (3, 6), (5, 8), (10, 12), (15, 15),
      (20, 18), (30, 22), (50, 28), (60, 31), (70, 34), (80, 36), (90, 38), (100, 40)]
  | .Medium => [(0, 0), (1, 4), (2, 8), (3, 11), (5, 15), (10, 22), (15, 28),
      (20, 33), (30, 40), (50, 50), (60, 55), (70, 59), (80, 63), (90, 66), (100, 69)]
  | .High => [(0, 0), (1, 6), (2, 12), (3, 17), (5, 23), (10, 34), (15, 42),
      (20, 48), (30, 58), (50, 70), (60, 75), (70, 79), (80, 83), (90, 86), (100, 89)]

/-- LONGITUDINAL_DEDUCT from astmDeductTables.ts. -/
def LONGITUDINAL_DEDUCT : SeverityLevel → List (ℚ × ℚ)
  | .Low => [(0, 0), (1, 1), (5, 3), (10, 5), (20, 8), (30, 11), (40, 14),
      (50, 16), (60, 18), (80, 22), (100, 25)]
  | .Medium => [(0, 0), (1, 2), (5, 6), (10, 10), (20, 16), (30, 21), (40, 26),
      (50, 30), (60, 34), (80, 40), (100, 45)]
  | .High => [(0, 0), (1, 3), (5, 9), (10, 15), (20, 24), (30, 31), (40, 38),
      (50, 44), (60, 49), (80, 58), (100, 65)]

/-- ALLIGATOR_DEDUCT from astmDeductTables.ts. -/
def ALLIGATOR_DEDUCT : SeverityLevel → List (ℚ × ℚ)
  | .Low => [(0, 0), (1, 3), (5, 8), (10, 14), (20, 22), (30, 28), (40, 33),
      (50, 38), (60, 42), (80, 48), (100, 52)]
  | .Medium => [(0, 0), (1, 5), (5, 14), (10, 24), (20, 38), (30, 48), (40, 56),
      (50, 62), (60, 67), (80, 75), (100, 80)]
  | .High => [(0, 0), (1, 8), (5, 20), (10, 35), (20, 54), (30, 66), (40, 75),
      (50, 82), (60, 87), (80, 94), (100, 98)]

/-- POTHOLE_DEDUCT from astmDeductTables.ts. -/
def POTHOLE_DEDUCT : SeverityLevel → List (ℚ × ℚ)
  | .Low => [(0, 0), (1, 5), (2, 10), (3, 14), (5, 20), (10, 32), (15, 40),
      (20, 46), (30, 55), (50, 68), (60, 74), (70, 79), (80, 83), (90, 87), (100, 90)]
  | .Medium => [(0, 0), (1, 8), (2, 15), (3, 21), (5, 30), (10, 45), (15, 55),
      (20, 62), (30, 72), (50, 85), (60, 89), (70, 92), (80, 95), (90, 97), (100, 99)]
  | .High => [(0, 0), (1, 12), (2, 22), (3, 30), (5, 42), (10, 60), (15, 72),
      (20, 80), (30, 90), (50, 100), (60, 100), (70, 100), (80, 100), (90, 100), (100, 100)]

/-- DEDUCT_TABLES from astmDeductTables.ts. -/
def DEDUCT_TABLES : DefectType → SeverityLevel → List (ℚ × ℚ)
  | .transverse => TRANSVERSE_DEDUCT
  | .longitudinal => LONGITUDINAL_DEDUCT
  | .alligator => ALLIGATOR_DEDUCT
  | .pothole => POTHOLE_DEDUCT

/-- CDV_CORRECTION_CURVES from astmDeductTables.ts, keyed by q in 1..10;
all other keys are absent (the JS record lookup yields undefined). -/
def CDV_CORRECTION_CURVES : ℕ → Option (List (ℚ × ℚ))
  | 1 => some [(0, 0), (10, 10), (20, 20), (30, 30), (40, 40), (50, 50), (60, 60),
      (70, 70), (80, 80), (90, 90), (100, 100), (110, 100), (120, 100)]
  | 2 => some [(0, 0), (10, 8), (20, 16), (30, 24), (40, 32), (50, 40), (60, 47),
      (70, 54), (80, 61), (90, 67), (100, 73), (110, 78), (120, 82), (140, 88),
      (160, 93), (180, 96), (200, 98)]
  | 3 => some [(0, 0), (10, 7), (20, 14), (30, 21), (40, 28), (50, 35), (60, 42),
      (70, 48), (80, 54), (90, 60), (100, 65), (110, 70), (120, 74), (140, 81),
      (160, 87), (180, 91), (200, 95)]
  | 4 => some [(0, 0), (10, 6), (20, 13), (30, 19), (40, 26), (50, 32), (60, 38),
      (70, 44), (80, 50), (90, 55), (100, 60), (110, 65), (120, 69), (140, 76),
      (160, 82), (180, 88), (200, 92)]
  | 5 => some [(0, 0), (10, 6), (20, 12), (30, 18), (40, 24), (50, 30), (60, 36),
      (70, 41), (80, 46), (90, 51), (100, 56), (110, 61), (120, 65), (140, 72),
      (160, 78), (180, 84), (200, 89)]
  | 6 => some [(0, 0), (10, 5), (20, 11), (30, 16), (40, 22), (50, 28), (60, 33),
      (70, 38), (80, 43), (90, 48), (100, 53), (110, 57), (120, 61), (140, 69),
      (160, 75), (180, 81), (200, 86)]
  | 7 => some [(0, 0), (10, 5), (20, 10), (30, 15), (40, 21), (50, 26), (60, 31),
      (70, 36), (80, 40), (90, 45), (100, 50), (110, 54), (120, 58), (140, 66),
      (160, 72), (180, 78), (200, 83)]
  | 8 => some [(0, 0), (10, 5), (20, 10), (30, 15), (40, 19), (50, 24), (60, 29),
      (70, 34), (80, 38), (90, 43), (100, 47), (110, 51), (120, 55), (140, 63),
      (160, 69), (180, 75), (200, 81)]
  | 9 => some [(0, 0), (10, 4), (20, 9), (30, 14), (40, 18), (50, 23), (60, 27),
      (70, 32), (80, 36), (90, 40), (100, 45), (110, 49), (120, 53), (140, 60),
      (160, 67), (180, 73), (200, 78)]
  | 10 => some [(0, 0), (10, 4), (20, 9), (30, 13), (40, 17), (50, 22), (60, 26),
      (70, 30), (80, 34), (90, 38), (100, 43), (110, 47), (120, 51), (140, 58),
      (160, 65), (180, 71), (200, 76)]
  | _ => none

/-! ## astmDeductTables.ts : interpolation -/

/-- JS object key lookup table[k] on an association list with unique keys. -/
def lookupTable (t : List (ℚ × ℚ)) (k : ℚ) : Option ℚ :=
  (t.find? (fun p => p.1 = k)).map Prod.snd

/-- The linear search of interpolateDeductValue: the first adjacent pair of
sorted keys bracketing c. -/
def firstBracket : List ℚ → ℚ → Option (ℚ × ℚ)
  | k1 :: k2 :: rest, c =>
      if k1 ≤ c ∧ c ≤ k2 then some (k1, k2) else firstBracket (k2 :: rest) c
  | _, _ => none

/-- The body of interpolateDeductValue after the density has been clamped:
exact-key lookup, then the linear search for the surrounding keys with the
first/last keys as defaults, then linear interpolation.  The JS code sorts
the object keys numerically ascending; here List.insertionSort models that
sort (it agrees with any comparison sort on the key multiset). -/
def interpolateCore (table : List (ℚ × ℚ)) (clampedDensity : ℚ) : ℚ :=
  let sortedKeys := (table.map Prod.fst).insertionSort (· ≤ ·)
  match lookupTable table clampedDensity with
  | some v => v
  | none =>
      let p := (firstBracket sortedKeys clampedDensity).getD
        (sortedKeys.headD 0, sortedKeys.getLastD 0)
      let lowerValue := (lookupTable table p.1).getD 0
      let upperValue := (lookupTable table p.2).getD 0
      if p.1 = p.2 then lowerValue
      else lowerValue + (clampedDensity - p.1) / (p.2 - p.1) * (upperValue - lowerValue)

/-- interpolateDeductValue from astmDeductTables.ts: clamp the density to
[0, 100], then interpolate. -/
def interpolateDeductValue (table : List (ℚ × ℚ)) (density : ℚ) : ℚ :=
  interpolateCore table (jsMax 0 (jsMin 100 density))

/-- getDeductValue from astmDeductTables.ts (the table always exists for the
four defect types and three severities, so the missing-table warning branch
is not reachable). -/
def getDeductValue (defectType : DefectType) (severity : SeverityLevel)
    (density : ℚ) : ℚ :=
  interpolateDeductValue (DEDUCT_TABLES defectType severity) density

/-- getCDVFromCurve from astmDeductTables.ts.  q is a count, so the JS
Math.round on it is the identity. -/
def getCDVFromCurve (tdv : ℚ) (q : ℕ) : ℚ :=
  let clampedQ := max 1 (min 10 q)
  match CDV_CORRECTION_CURVES clampedQ with
  | some curve => interpolateDeductValue curve tdv
  | none => jsMin 100 tdv

/-! ## astmDeductTables.ts : applyMultipleDeductCorrection -/

/-- How the iterative CDV loop of applyMultipleDeductCorrection terminated. -/
inductive ExitKind
  /-- The 0-or-1-significant-deducts early return (no iteration at all). -/
  | direct
  /-- The loop stopped because q ≤ 1. -/
  | qDone
  /-- The loop stopped because no deduct > 2.0 was found to reduce. -/
  | noReduce
  /-- The loop stopped because the 20-iteration safety cap was reached. -/
  | fuelOut
deriving DecidableEq, Repr

/-- The in-place reduction step of the CDV loop: walking the array from the
end, the last element > 2.0 is set to exactly 2.0 (none if there is none). -/
def reduceLast : List ℚ → Option (List ℚ)
  | [] => none
  | x :: xs =>
      match reduceLast xs with
      | some xs' => some (x :: xs')
      | none => if x > 2 then some (2 :: xs) else none

/-- JS Math.max over a non-empty array of rationals. -/
def maxList (l : List ℚ) : ℚ := l.foldl jsMax (l.headD 0)

/-- The while loop of applyMultipleDeductCorrection.  fuel counts remaining
passes (maxIterations = 20); each pass records one CDV. -/
def cdvLoop : ℕ → List ℚ → List ℚ → List ℚ × ExitKind
  | 0, _, acc => (acc, .fuelOut)
  | fuel + 1, w, acc =>
      let q := (w.filter (fun dv => dv > 2)).length
      let tdv := w.foldl (· + ·) 0
      let cdv := getCDVFromCurve tdv q
      let acc' := acc ++ [cdv]
      if q ≤ 1 then (acc', .qDone)
      else
        match reduceLast w with
        | some w' => cdvLoop fuel w' acc'
        | none => (acc', .noReduce)

/-- applyMultipleDeductCorrection from astmDeductTables.ts, returning the
corrected value together with how the iteration ended.  Math.floor(m) is
nonnegative whenever the highest deduct is ≤ 100 + 98/9, which holds on the
whole domain considered here, so the Int.toNat coercions are exact. -/
def applyMDCFull (deductValues : List ℚ) : ℚ × ExitKind :=
  if deductValues = [] then (0, .direct)
  else
    let significantDeducts := deductValues.filter (fun dv => dv > 2)
    if significantDeducts.length ≤ 1 then
      let tdv := deductValues.foldl (· + ·) 0
      (jsMax 0 (jsMin 100 tdv), .direct)
    else
      let sortedDeducts := deductValues.insertionSort (fun a b => b ≤ a)
      let hdv := sortedDeducts.headD 0
      let m := jsMin 10 (1 + 9 / 98 * (100 - hdv))
      let mFloor := (⌊m⌋ : ℤ).toNat
      let mFraction := m - ⌊m⌋
      let workingDeducts := sortedDeducts.take mFloor ++
        (if 0 < mFraction ∧ mFloor < sortedDeducts.length
          then [sortedDeducts.getD mFloor 0 * mFraction] else [])
      let res := cdvLoop 20 workingDeducts []
      (jsMax 0 (jsMin 100 (maxList res.1)), res.2)

/-- applyMultipleDeductCorrection from astmDeductTables.ts (value only). -/
def applyMultipleDeductCorrection (deductValues : List ℚ) : ℚ :=
  (applyMDCFull deductValues).1

/-! ## astmDeductTables.ts : rating bands -/

/-- getPCIRating from astmDeductTables.ts. -/
def getPCIRating (pci : ℚ) : String :=
  if pci ≥ 85 then "Excellent"
  else if pci ≥ 70 then "Good"
  else if pci ≥ 55 then "Fair"
  else if pci ≥ 40 then "Poor"
  else if pci ≥ 25 then "Very Poor"
  else "Failed"

/-- getPixelBasedPCIRating from astmDeductTables.ts. -/
def getPixelBasedPCIRating (pci : ℚ) : String :=
  if pci ≥ 85 then "Good"
  else if pci ≥ 70 then "Satisfactory"
  else if pci ≥ 55 then "Fair"
  else if pci ≥ 40 then "Poor"
  else if pci ≥ 25 then "Very Poor"
  else if pci ≥ 10 then "Serious"
  else "Failed"

/-! ## Spec-side description of the multiple-deduct correction (section 4.1
of the spec, steps 2-4), used to compare the spec text with
applyMultipleDeductCorrection. -/

/-- Minimum of a list of rationals (0 for the empty list). -/
def minOver : List ℚ → ℚ
  | [] => 0
  | x :: xs => xs.foldl jsMin x

/-- Replace the last occurrence of mu in the list by 2.0. -/
def replaceLastOcc (mu : ℚ) : List ℚ → List ℚ
  | [] => []
  | x :: xs =>
      if mu ∈ xs then x :: replaceLastOcc mu xs
      else if x = mu then 2 :: xs
      else x :: xs

/-- The spec wording "clamp the smallest value > 2.0 down to exactly 2.0":
replace (the last occurrence of) the smallest value exceeding 2.0 by 2.0. -/
def specReduceSmallest (w : List ℚ) : List ℚ :=
  replaceLastOcc (minOver (w.filter (fun dv => dv > 2))) w

/-- The iteration of the spec's step 3 (safety cap of 20 passes): compute q
and TDV, record the CDV from the correction curve, stop when q ≤ 1,
otherwise clamp the smallest value > 2.0 to 2.0 and repeat.  When tdvAll is
true, TDV is the sum of all remaining values; when false, TDV is the sum of
only the values exceeding 2.0 (the reading fixed by the claim). -/
def cdvSpecLoop (tdvAll : Bool) : ℕ → List ℚ → List ℚ → List ℚ
  | 0, _, acc => acc
  | fuel + 1, w, acc =>
      let q := (w.filter (fun dv => dv > 2)).length
      let tdv := if tdvAll then w.foldl (· + ·) 0
        else (w.filter (fun dv => dv > 2)).foldl (· + ·) 0
      let acc' := acc ++ [getCDVFromCurve tdv q]
      if q ≤ 1 then acc'
      else cdvSpecLoop tdvAll fuel (specReduceSmallest w) acc'

/-- The spec's multiple-deduct correction for inputs with at least two
values above 2.0: sort descending, compute m, retain the floor(m) largest
values plus the next value scaled by the fractional part of m, iterate, and
return the maximum recorded CDV clamped to [0, 100]. -/
def cdvCorrectionSpec (tdvAll : Bool) (deductValues : List ℚ) : ℚ :=
  let sortedDeducts := deductValues.insertionSort (fun a b => b ≤ a)
  let hdv := sortedDeducts.headD 0
  let m := jsMin 10 (1 + 9 / 98 * (100 - hdv))
  let mFloor := (⌊m⌋ : ℤ).toNat
  let mFraction := m - ⌊m⌋
  let retained := sortedDeducts.take mFloor ++
    (if 0 < mFraction ∧ mFloor < sortedDeducts.length
      then [sortedDeducts.getD mFloor 0 * mFraction] else [])
  jsMax 0 (jsMin 100 (maxList (cdvSpecLoop tdvAll 20 retained [])))

/-! ## pciCalculator.ts : the power-law PCI estimator -/

/-- PixelPercentageData from pciCalculator.ts (all fields optional). -/
structure PixelPercentageData where
  transverse : Option ℚ := none
  alligator : Option ℚ := none
  pothole : Option ℚ := none
  sealed_crack : Option ℚ := none
  longitudinal : Option ℚ := none
  total : Option ℚ := none
deriving DecidableEq, Repr

/-- The per-defect-type deduct subtotals of a PCIResult. -/
structure DeductBreakdown where
  transverse : ℚ
  longitudinal : ℚ
  alligator : ℚ
  pothole : ℚ
deriving DecidableEq, Repr

/-- PCIResult from pciCalculator.ts (the fields the claims are about;
damage_percentage is the damage_metrics.damage_percentage field). -/
structure PCIResult where
  pci_score : ℚ
  pci_rating : String
  total_deduct_value : ℚ
  deduct_breakdown : DeductBreakdown
  damage_percentage : ℚ
deriving DecidableEq, Repr

/-- The diminishing weight for sorted deduct index i: 1.0, 0.7, 0.4, then
0.1 for every index ≥ 3. -/
def pciWeight (i : ℕ) : ℚ :=
  if i = 0 then 1 else if i = 1 then 7 / 10 else if i = 2 then 2 / 5 else 1 / 10

/-- The weighted total of calculatePCI: sum of value * weight over the
descending-sorted deduct list, indexed from i. -/
def weightedTotal : ℕ → List (String × ℚ) → ℚ
  | _, [] => 0
  | i, x :: xs => x.2 * pciWeight i + weightedTotal (i + 1) xs

/-- calculatePCI from pciCalculator.ts.  powf is JS Math.pow.  The densities
object is iterated in insertion order (alligator, transverse, longitudinal,
sealed, pothole); a deduct is produced only for densities > 0; the sealed
deduct is folded into the transverse breakdown slot. -/
def calculatePCI (powf : ℚ → ℚ → ℚ) (pixelPercentages : PixelPercentageData) :
    PCIResult :=
  let dAlligator := pixelPercentages.alligator.getD 0
  let dTransverse := pixelPercentages.transverse.getD 0
  let dLongitudinal := pixelPercentages.longitudinal.getD 0
  let dSealed := pixelPercentages.sealed_crack.getD 0
  let dPothole := pixelPercentages.pothole.getD 0
  let alligatorDeduct := jsMin (28 * powf dAlligator (45 / 100)) 80
  let transverseDeduct := jsMin (15 / 2 * powf dTransverse (3 / 5)) 40
  let longitudinalDeduct := jsMin (8 * powf dLongitudinal (13 / 20)) 40
  let sealedDeduct := jsMin (3 * powf dSealed (1 / 2)) 15
  let potholeDeduct := jsMin (100 * powf dPothole (3 / 5)) 100
  let deductValues : List (String × ℚ) :=
    (if dAlligator > 0 then [("alligator", alligatorDeduct)] else []) ++
    (if dTransverse > 0 then [("transverse", transverseDeduct)] else []) ++
    (if dLongitudinal > 0 then [("longitudinal", longitudinalDeduct)] else []) ++
    (if dSealed > 0 then [("sealed", sealedDeduct)] else []) ++
    (if dPothole > 0 then [("pothole", potholeDeduct)] else [])
  let sortedDeductValues := deductValues.insertionSort (fun a b => b.2 ≤ a.2)
  let total_cdv := jsMin 100 (weightedTotal 0 sortedDeductValues)
  let pci_score := jsMax 0 (100 - total_cdv)
  { pci_score := round1 pci_score
    pci_rating := getPixelBasedPCIRating pci_score
    total_deduct_value := round1 total_cdv
    deduct_breakdown :=
      { transverse := round1 ((if dTransverse > 0 then transverseDeduct else 0) +
          (if dSealed > 0 then sealedDeduct else 0))
        longitudinal := round1 (if dLongitudinal > 0 then longitudinalDeduct else 0)
        alligator := round1 (if dAlligator > 0 then alligatorDeduct else 0)
        pothole := round1 (if dPothole > 0 then potholeDeduct else 0) }
    damage_percentage := round1 (dTransverse + dAlligator + dPothole + dLongitudinal) }

/-- The weighted total over a plain list of deduct values (claim wording:
weights 1.0, 0.7, 0.4 and then 0.1 for every later index). -/
def weightedTotalQ : ℕ → List ℚ → ℚ
  | _, [] => 0
  | i, x :: xs => x * pciWeight i + weightedTotalQ (i + 1) xs

/-- The claim's description of the calculatePCI score: for each of the five
defect categories whose density is > 0, a deduct of min(cap, a * density^b)
with the fixed per-category coefficients; sort descending; apply the
diminishing weights; clamp the total to 100; pci = max(0, 100 - total),
rounded to one decimal. -/
def pciSpecScore (powf : ℚ → ℚ → ℚ) (pixelPercentages : PixelPercentageData) : ℚ :=
  let dAlligator := pixelPercentages.alligator.getD 0
  let dTransverse := pixelPercentages.transverse.getD 0
  let dLongitudinal := pixelPercentages.longitudinal.getD 0
  let dSealed := pixelPercentages.sealed_crack.getD 0
  let dPothole := pixelPercentages.pothole.getD 0
  let deducts : List ℚ :=
    (if dAlligator > 0 then [jsMin 80 (28 * powf dAlligator (45 / 100))] else []) ++
    (if dPothole > 0 then [jsMin 100 (100 * powf dPothole (3 / 5))] else []) ++
    (if dLongitudinal > 0 then [jsMin 40 (8 * powf dLongitudinal (13 / 20))] else []) ++
    (if dTransverse > 0 then [jsMin 40 (15 / 2 * powf dTransverse (3 / 5))] else []) ++
    (if dSealed > 0 then [jsMin 15 (3 * powf dSealed (1 / 2))] else [])
  let total := jsMin 100 (weightedTotalQ 0 (deducts.insertionSort (fun a b => b ≤ a)))
  round1 (jsMax 0 (100 - total))

/-! ## map/page.tsx : segment builder (convertParentTracksToFeatures)

Frame identifiers are modelled as integers and the per-job GPS-derived
frame-to-segment map and segment-coordinate map as abstract functions (the
geodesic distance computation behind them, turf.distance, is an external
library treated as an oracle).  The jobId keys of the JS Maps are strings. -/

/-- ASCII model of String.prototype.toLowerCase (the defect-type enum values
only use ASCII letters). -/
def asciiLowerChar (c : Char) : Char :=
  if 'A' ≤ c ∧ c ≤ 'Z' then Char.ofNat (c.toNat + 32) else c

/-- ASCII lowercase of a string. -/
def asciiLower (s : String) : String := String.mk (s.data.map asciiLowerChar)

/-- A defect of a child track, as read by the damage-counting loop of
convertParentTracksToFeatures: defect_type is (defect.defect_type || ''),
frame_id is Number(defect.frame_id ?? defect.frame) (none when that is not
finite). -/
structure SBDefect where
  defect_type : String
  frame_id : Option ℤ
deriving DecidableEq, Repr

/-- The loop body of the trackDamage accumulation: a defect counts unless
it is a sealed_crack (after lowercasing), or its frame has a known
interpolated speed below 5 mph.  speedOf is the frameToSpeedMap. -/
def damageStep (speedOf : ℤ → Option ℚ) (trackDamage : ℕ) (defect : SBDefect) : ℕ :=
  let defectType := asciiLower defect.defect_type
  if defectType ≠ "sealed_crack" then
    let frameSpeed := defect.frame_id.bind speedOf
    match frameSpeed with
    | none => trackDamage + 1
    | some s => if s ≥ 5 then trackDamage + 1 else trackDamage
  else trackDamage

/-- The trackDamage accumulation of convertParentTracksToFeatures (lines
837-852). -/
def computeTrackDamage (speedOf : ℤ → Option ℚ) (defects : List SBDefect) : ℕ :=
  defects.foldl (damageStep speedOf) 0

/-- A processed child track, with the fields the segment-assignment and
emission steps read. -/
structure SBChild where
  track_id : ℤ
  track_damage : ℕ
  frame_ids : List ℤ
  coordinates : List (ℚ × ℚ)
deriving DecidableEq, Repr

/-- A processed parent track. -/
structure SBParent where
  parent_track_id : ℤ
  job_id : Option String
  frame_ids : List ℤ
  children : List SBChild
deriving DecidableEq, Repr

/-- JS Set insertion: append if not already present. -/
def insertUnique (l : List ℕ) (x : ℕ) : List ℕ := if x ∈ l then l else l ++ [x]

/-- The contents of a JS Set filled from a list, in insertion order. -/
def dedupFirst (l : List ℕ) : List ℕ := l.foldl insertUnique []

/-- getTrackSegments from convertParentTracksToFeatures: the set of segment
ids (insertion order) that a track's frame ids map to. -/
def getTrackSegments (frameIds : List ℤ) (frameToSegment : ℤ → Option ℕ) :
    List ℕ :=
  dedupFirst (frameIds.filterMap frameToSegment)

/-- The per-job frame-to-segment and segment-coordinate maps built by
buildFrameToSegmentMap (kept abstract; see the section comment). -/
structure JobMapping where
  frameToSegment : ℤ → Option ℕ
  segmentCoords : ℕ → Option ((ℚ × ℚ) × (ℚ × ℚ))

/-- A segmentData bucket: accumulated damage and the contributing tracks
(the track_ids / defect_types / job_ids bookkeeping sets of the JS bucket
are not read by the claims and are not modelled). -/
structure SegBucket where
  damage : ℕ
  tracks : List SBChild
deriving DecidableEq, Repr

/-- One child-track assignment into the segmentData map: create the bucket
if the (jobId, segmentId) key is new, then add the child's damage and push
the track. -/
def addChildToSegment :
    List ((String × ℕ) × SegBucket) → String × ℕ → SBChild →
      List ((String × ℕ) × SegBucket)
  | [], k, c => [(k, ⟨c.track_damage, [c]⟩)]
  | (k0, b) :: rest, k, c =>
      if k0 = k then (k0, ⟨b.damage + c.track_damage, b.tracks ++ [c]⟩) :: rest
      else (k0, b) :: addChildToSegment rest k c

/-- The parent-first assignment loop of convertParentTracksToFeatures (lines
953-1044) for one parent track. -/
def processParent (jobMappings : String → Option JobMapping)
    (sd : List ((String × ℕ) × SegBucket)) (p : SBParent) :
    List ((String × ℕ) × SegBucket) :=
  let jobId := p.job_id.getD ""
  match jobMappings jobId with
  | none =>
      -- no GPS mapping available: fall back to segment 0
      p.children.foldl (fun sd c => addChildToSegment sd (jobId, 0) c) sd
  | some jm =>
      let parentSegments := getTrackSegments p.frame_ids jm.frameToSegment
      if parentSegments.length ≤ 1 then
        -- parent fits in one segment (or none): assign all children there
        let segmentId := parentSegments.headD 0
        p.children.foldl (fun sd c => addChildToSegment sd (jobId, segmentId) c) sd
      else
        -- parent spans multiple segments: assign each child individually
        p.children.foldl
          (fun sd c =>
            let childSegments := getTrackSegments c.frame_ids jm.frameToSegment
            let segmentsToAssign :=
              if childSegments = [] then [parentSegments.headD 0] else childSegments
            segmentsToAssign.foldl (fun sd s => addChildToSegment sd (jobId, s) c) sd)
          sd

/-- The whole segmentData construction over all parent tracks. -/
def assignTracksToSegments (jobMappings : String → Option JobMapping)
    (parents : List SBParent) : List ((String × ℕ) × SegBucket) :=
  parents.foldl (processParent jobMappings) []

/-- One entry of a job's segments_index.json (1-indexed segment_id and its
optional pixel-percentage record). -/
structure VideoSegment where
  segment_id : ℤ
  pixel_percentage_with_projections : Option PixelPercentageData
deriving DecidableEq, Repr

/-- An emitted road-segment feature (the properties the claims read). -/
structure RoadSegmentFeature where
  job_id : String
  segment_id : ℤ
  damage_count : ℕ
  start_feet : ℕ
  end_feet : ℕ
  geometry : List (ℚ × ℚ)
  pci_score : ℚ
  pci_rating : String
  total_deduct_value : ℚ
  deduct_breakdown : DeductBreakdown
deriving DecidableEq, Repr

/-- One pass of the segment-emission loop of convertParentTracksToFeatures
(lines 1050-1142): resolve geometry (GPS segment coordinates, else the
first contributing track's coordinates, else drop the segment), match the
video segment index by 1-indexed id, and run calculatePCI on the matched
pixel percentages (an empty record when unmatched). -/
def emitOne (powf : ℚ → ℚ → ℚ) (jobMappings : String → Option JobMapping)
    (videoSegments : String → Option (List VideoSegment))
    (e : (String × ℕ) × SegBucket) : Option RoadSegmentFeature :=
  let jobId := e.1.1
  let segmentId := e.1.2
  let geometry : Option (List (ℚ × ℚ)) :=
    match (jobMappings jobId).bind (fun jm => jm.segmentCoords segmentId) with
    | some sc => some [sc.1, sc.2]
    | none =>
        match e.2.tracks with
        | [] => none
        | t :: _ => if t.coordinates = [] then none else some t.coordinates
  match geometry with
  | none => none
  | some coords =>
      let pixelPercentages : PixelPercentageData :=
        match (videoSegments jobId).bind
          (fun segs => segs.find? (fun s => s.segment_id = (segmentId : ℤ) + 1)) with
        | some matchingSegment =>
            matchingSegment.pixel_percentage_with_projections.getD {}
        | none => {}
      let pciResult := calculatePCI powf pixelPercentages
      some { job_id := jobId
             segment_id := (segmentId : ℤ) + 1
             damage_count := e.2.damage
             start_feet := segmentId * 528
             end_feet := (segmentId + 1) * 528
             geometry := coords
             pci_score := pciResult.pci_score
             pci_rating := pciResult.pci_rating
             total_deduct_value := pciResult.total_deduct_value
             deduct_breakdown := pciResult.deduct_breakdown }

/-- The segment-emission loop over the whole segmentData map. -/
def emitSegments (powf : ℚ → ℚ → ℚ) (jobMappings : String → Option JobMapping)
    (videoSegments : String → Option (List VideoSegment))
    (sd : List ((String × ℕ) × SegBucket)) : List RoadSegmentFeature :=
  sd.filterMap (emitOne powf jobMappings videoSegments)

/-! ## map/page.tsx : detections, dedup keys, the normalizer and the
frame aggregator

Frame identifiers and track identifiers are modelled as integers (the
string-valued candidate spellings are normalized upstream), numeric fields
as rationals; a JS null/undefined/non-finite slot is none. -/

/-- Math.round to four decimals, modelling Number.prototype.toFixed(4) as
used inside the dedup key (ties round toward +inf in both). -/
def round4 (x : ℚ) : ℚ := (jsRound (x * 10000) : ℚ) / 10000

/-- toFixed(2), as used on bbox coordinates inside the dedup key. -/
def round2 (x : ℚ) : ℚ := (jsRound (x * 100) : ℚ) / 100

/-- A detection record (either a raw in-frame detection or an
extractDetectionSummary result; absent fields are none). -/
structure Det where
  defect_id : Option String := none
  id : Option String := none
  frame_id : Option ℤ := none
  frame_number : Option ℤ := none
  track_id : Option ℤ := none
  track : Option ℤ := none
  class_name : Option String := none
  defect_type : Option String := none
  class_id : Option String := none
  severity : Option String := none
  severity_score : Option ℚ := none
  confidence : Option ℚ := none
  area_px : Option ℚ := none
  spatial_zone : Option String := none
  spatial_bin : Option String := none
  bbox : Option (List ℚ) := none
  gps_timestamp : Option ℚ := none
  coordinates : Option (ℚ × ℚ) := none
  thumbnail_url : Option String := none
  polygon_overlay_url : Option String := none
  annotated_image_url : Option String := none
  original_frame_url : Option String := none
deriving DecidableEq, Repr

/-- The identity key built by buildDetectionDedupKey: the defect id when
present, otherwise the composite of frame, track, class, confidence rounded
to 4 decimals and bbox rounded to 2 decimals (a missing component is the
corresponding 'unknown' placeholder, modelled as none). -/
inductive DKey
  | defect (i : String)
  | composite (frame : Option ℤ) (trackId : Option ℤ) (className : Option String)
      (conf : Option ℚ) (bb : Option (List ℚ))
deriving DecidableEq, Repr

/-- buildDetectionDedupKey from map/page.tsx (never null on an actual
detection record). -/
def buildDetectionDedupKey (d : Det) (fallbackFrameId : Option ℤ) : DKey :=
  match d.defect_id <|> d.id with
  | some i => .defect i
  | none =>
      .composite (d.frame_id <|> d.frame_number <|> fallbackFrameId)
        (d.track_id <|> d.track) (d.class_name <|> d.defect_type)
        (d.confidence.map round4) (d.bbox.map (fun bs => bs.map round2))

/-- The order-preserving first-wins filter over detection keys (seen holds
the keys already kept). -/
def dedupeByKey (keyOf : Det → DKey) : List Det → List DKey → List Det
  | [], _ => []
  | d :: ds, seen =>
      let k := keyOf d
      if k ∈ seen then dedupeByKey keyOf ds seen
      else d :: dedupeByKey keyOf ds (k :: seen)

/-- dedupeDetectionsArray from map/page.tsx: arrays of fewer than two
detections are returned unchanged. -/
def dedupeDetectionsArray (detections : List Det) (fallbackFrameId : Option ℤ) :
    List Det :=
  if detections.length < 2 then detections
  else dedupeByKey (fun d => buildDetectionDedupKey d fallbackFrameId) detections []

/-- The two dataset modes of the map page. -/
inductive TargetMode | metadata | data
deriving DecidableEq, Repr

/-- The property bag of a raw feature, as read and written by
normalizeFeatureProperties (the image-URL rewriting of that function,
convertS3UriToHttp, is orthogonal to the claims and is not modelled). -/
structure FeatureProps where
  frame_id : Option ℤ := none
  frame_number : Option ℤ := none
  gps_timestamp : Option ℚ := none
  all_detections_in_frame : Option (List Det) := none
  detection_count_in_frame : Option ℚ := none
  class_name : Option String := none
  defect_type : Option String := none
  defect_id : Option String := none
  severity : Option String := none
  severity_score : Option ℚ := none
  track_id : Option ℤ := none
  confidence : Option ℚ := none
  area_px : Option ℚ := none
  spatial_zone : Option String := none
  spatial_bin : Option String := none
  frame_type : Option String := none
deriving DecidableEq, Repr

/-- The single detection synthesized from flat detection properties in
'data' mode (its class slot is class_id, which buildDetectionDedupKey does
not read). -/
def synthesizedDetection (p : FeatureProps) : Det :=
  { class_id := p.class_name <|> p.defect_type
    defect_id := p.defect_id
    severity := p.severity
    severity_score := p.severity_score
    track_id := p.track_id
    frame_id := p.frame_id <|> p.frame_number
    confidence := p.confidence
    area_px := p.area_px
    spatial_zone := p.spatial_zone
    spatial_bin := p.spatial_bin }

/-- normalizeFeatureProperties from map/page.tsx (lines 313-391), without
the image-URL block: frame_number defaulting, the data-mode synthesis of
all_detections_in_frame and the stated-count clamp, the metadata-mode count
default, then the dedup pass which also rewrites detection_count_in_frame,
and the frame_type default. -/
def normalizeFeatureProperties (mode : TargetMode) (p : FeatureProps) :
    FeatureProps :=
  let frameNumber := p.frame_number <|> p.frame_id
  let detsAfterMode : Option (List Det) :=
    match mode with
    | .data =>
        match p.all_detections_in_frame with
        | some l => if l = [] then some [synthesizedDetection p] else some l
        | none => some [synthesizedDetection p]
    | .metadata => p.all_detections_in_frame
  let countAfterMode : Option ℚ :=
    match mode with
    | .data =>
        -- Math.max(stated || length, 1), where 0/undefined are falsy
        let len : ℚ := ((detsAfterMode.getD []).length : ℚ)
        let stated :=
          match p.detection_count_in_frame with
          | some c => if c = 0 then len else c
          | none => len
        some (jsMax stated 1)
    | .metadata =>
        match p.detection_count_in_frame, p.all_detections_in_frame with
        | none, some l => some ((l.length : ℚ))
        | c, _ => c
  let (detsFinal, countFinal) :=
    match detsAfterMode with
    | some l =>
        let deduped := dedupeDetectionsArray l (p.frame_id <|> frameNumber)
        (some deduped, some ((deduped.length : ℚ)))
    | none => (none, countAfterMode)
  { p with
    frame_number := frameNumber
    all_detections_in_frame := detsFinal
    detection_count_in_frame := countFinal
    frame_type := p.frame_type <|> (p.defect_type <|> p.class_name) }

/-! ## map/page.tsx : aggregateDetectionsByFrame -/

/-- A feature entering the frame aggregator; dets holds its detection
summaries (the gatherDetectionsForFeature / extractDetectionSummary result,
never empty for a real feature). -/
structure AggFeature where
  frame_id : Option ℤ := none
  frame_number : Option ℤ := none
  globalTimestamp : Option ℚ := none
  compressed_annotated_image_url : Option String := none
  annotated_image_url : Option String := none
  original_image_url : Option String := none
  geometry : Option (ℚ × ℚ) := none
  dets : List Det := []
deriving DecidableEq, Repr

/-- deriveFrameIdentifier from map/page.tsx, on integer-normalized frame
slots (the frameId / frameNumber / frame / frame_index spellings and string
forms are normalized upstream of this model). -/
def deriveFrameIdentifier (f : AggFeature) : Option ℤ :=
  f.frame_id <|> f.frame_number

/-- The in-progress merged frame feature for one frame identifier:
the base properties copied from the first contributing feature, the
accumulated deduplicated detections with their registry of seen keys, and
the coordinate accumulator. -/
structure FrameAcc where
  frame_id : Option ℤ
  frame_number : Option ℤ
  globalTimestamp : Option ℚ
  compressed_annotated_image_url : Option String
  annotated_image_url : Option String
  original_image_url : Option String
  geometry : Option (ℚ × ℚ)
  dets : List Det
  registry : List DKey
  lngSum : ℚ
  latSum : ℚ
  coordCount : ℕ
deriving DecidableEq, Repr

/-- The fresh frame feature created for identifier k from the first
contributing feature f (the spread of f's properties with the detection
slots reset). -/
def initAcc (k : ℤ) (f : AggFeature) : FrameAcc :=
  { frame_id := some k
    frame_number := f.frame_number <|> some k
    globalTimestamp := f.globalTimestamp
    compressed_annotated_image_url := f.compressed_annotated_image_url
    annotated_image_url := f.annotated_image_url
    original_image_url := f.original_image_url
    geometry := f.geometry
    dets := []
    registry := []
    lngSum := 0
    latSum := 0
    coordCount := 0 }

/-- Folding one detection summary into a frame feature: skip when its dedup
key was seen, otherwise append it, accumulate its finite coordinates, fill
the still-empty image slots, and lower the globalTimestamp (the JS guard is
falsy-based, so a stored 0 is also overwritten). -/
def addSummary (acc : FrameAcc) (summary : Det) : FrameAcc :=
  let detectionKey := buildDetectionDedupKey summary (acc.frame_id <|> acc.frame_number)
  if detectionKey ∈ acc.registry then acc
  else
    { acc with
      registry := detectionKey :: acc.registry
      dets := acc.dets ++ [summary]
      lngSum := acc.lngSum + (summary.coordinates.map Prod.fst).getD 0
      latSum := acc.latSum + (summary.coordinates.map Prod.snd).getD 0
      coordCount := acc.coordCount + (if summary.coordinates.isSome then 1 else 0)
      compressed_annotated_image_url :=
        if acc.compressed_annotated_image_url = none ∧ summary.thumbnail_url ≠ none
        then summary.thumbnail_url else acc.compressed_annotated_image_url
      annotated_image_url :=
        if acc.annotated_image_url = none ∧
            (summary.annotated_image_url ≠ none ∨ summary.polygon_overlay_url ≠ none)
        then summary.annotated_image_url <|> summary.polygon_overlay_url
        else acc.annotated_image_url
      original_image_url :=
        if acc.original_image_url = none ∧ summary.original_frame_url ≠ none
        then summary.original_frame_url else acc.original_image_url
      globalTimestamp :=
        match summary.gps_timestamp with
        | none => acc.globalTimestamp
        | some ts =>
            match acc.globalTimestamp with
            | none => some ts
            | some g => if g = 0 ∨ ts < g then some ts else some g }

/-- Lookup in the insertion-ordered framesMap. -/
def accFind : List (ℤ × FrameAcc) → ℤ → Option FrameAcc
  | [], _ => none
  | (k0, a) :: rest, k => if k0 = k then some a else accFind rest k

/-- Store into the framesMap: update the existing entry or append a new
one (JS Map insertion order). -/
def accUpsert : List (ℤ × FrameAcc) → ℤ → FrameAcc → List (ℤ × FrameAcc)
  | [], k, a => [(k, a)]
  | (k0, a0) :: rest, k, a =>
      if k0 = k then (k0, a) :: rest else (k0, a0) :: accUpsert rest k a

/-- Processing one feature of the aggregation loop: keyless features are
kept aside as orphans, others fold their summaries into their frame's
entry (created on first encounter). -/
def mergeStep (st : List (ℤ × FrameAcc) × List AggFeature) (f : AggFeature) :
    List (ℤ × FrameAcc) × List AggFeature :=
  match deriveFrameIdentifier f with
  | none => (st.1, st.2 ++ [f])
  | some k =>
      let acc0 := match accFind st.1 k with
        | some a => a
        | none => initAcc k f
      (accUpsert st.1 k (f.dets.foldl addSummary acc0), st.2)

/-- Finalizing a merged frame: replace the geometry by the averaged Point
when any valid coordinates were accumulated. -/
def finalizeAcc (acc : FrameAcc) : AggFeature :=
  { frame_id := acc.frame_id
    frame_number := acc.frame_number
    globalTimestamp := acc.globalTimestamp
    compressed_annotated_image_url := acc.compressed_annotated_image_url
    annotated_image_url := acc.annotated_image_url
    original_image_url := acc.original_image_url
    geometry :=
      if acc.coordCount > 0
      then some (acc.lngSum / acc.coordCount, acc.latSum / acc.coordCount)
      else acc.geometry
    dets := acc.dets }

/-- The sort key of the final ascending sort (Number.MAX_SAFE_INTEGER for a
feature without a frame number). -/
def frameSortKey (f : AggFeature) : ℤ :=
  (f.frame_number <|> f.frame_id).getD 9007199254740991

/-- aggregateDetectionsByFrame from map/page.tsx (lines 513-647): skip
aggregation when no frame identifier occurs twice; otherwise merge by frame
identifier, sort merged frames ascending by frame number (stable), and
append the keyless orphans. -/
def aggregateDetectionsByFrame (features : List AggFeature) : List AggFeature :=
  if features = [] then features
  else if (features.filterMap deriveFrameIdentifier).Nodup then features
  else
    let st := features.foldl mergeStep ([], [])
    (st.1.map (fun e => finalizeAcc e.2)).insertionSort
        (fun a b => frameSortKey a < frameSortKey b)
      ++ st.2

/-- The damage-counting predicate of the segment builder as the claims
phrase it: the defect is not a sealed_crack, and its frame's speed is
unknown (no datum) or at least 5 mph. -/
def countsAsDamage (speedOf : ℤ → Option ℚ) (d : SBDefect) : Bool :=
  d.defect_type ≠ "sealed_crack" && (d.frame_id.bind speedOf).all (fun s => 5 ≤ s)

/-! ## Helper lemmas -/

lemma jsMin_comm (a b : ℚ) : jsMin a b = jsMin b a := by
  unfold jsMin
  by_cases h1 : b ≤ a <;> by_cases h2 : a ≤ b <;> simp [h1, h2]
  · exact le_antisymm h1 h2
  · exact absurd (le_total a b) (by simp [h1, h2])

lemma jsMax_nonneg_left (x : ℚ) : 0 ≤ jsMax 0 x := by
  unfold jsMax; split <;> simp_all

lemma jsMax_zero_of_nonneg {x : ℚ} (h : 0 ≤ x) : jsMax 0 x = x := by
  unfold jsMax; simp [h]

lemma jsMin_le_left (a b : ℚ) : jsMin a b ≤ a := by
  unfold jsMin; split <;> simp_all

lemma jsMin_le_right (a b : ℚ) : jsMin a b ≤ b := by
  unfold jsMin; split <;> simp_all [le_of_not_ge, le_of_lt]

lemma le_jsMin {a b c : ℚ} (hab : c ≤ a) (hbc : c ≤ b) : c ≤ jsMin a b := by
  unfold jsMin; split <;> assumption

lemma clamp01_100_mem (x : ℚ) :
    0 ≤ jsMax 0 (jsMin 100 x) ∧ jsMax 0 (jsMin 100 x) ≤ 100 := by
  refine ⟨jsMax_nonneg_left _, ?_⟩
  unfold jsMax
  split
  · exact jsMin_le_left 100 x
  · norm_num

lemma foldl_add_nonneg {l : List ℚ} {a : ℚ} (ha : 0 ≤ a)
    (hl : ∀ x ∈ l, 0 ≤ x) : 0 ≤ l.foldl (· + ·) a := by
  induction l generalizing a with
  | nil => simpa using ha
  | cons x xs ih =>
      exact ih (add_nonneg ha (hl x (List.mem_cons_self x xs)))
        (fun y hy => hl y (List.mem_cons_of_mem x hy))

/-- reduceLast finds nothing exactly when no element exceeds 2. -/
lemma reduceLast_eq_none {w : List ℚ} :
    reduceLast w = none ↔ ∀ x ∈ w, ¬ (2 : ℚ) < x := by
  induction w with
  | nil => simp [reduceLast]
  | cons x xs ih =>
      simp only [reduceLast]
      rcases h : reduceLast xs with _ | w'
      · by_cases hx : (2 : ℚ) < x
        · simp only [gt_iff_lt, if_pos hx]
          constructor
          · intro hc; cases hc
          · intro hall; exact absurd hx (hall x (List.mem_cons_self x xs))
        · simp only [gt_iff_lt, if_neg hx]
          constructor
          · intro _ y hy
            rcases List.mem_cons.mp hy with rfl | hy'
            · exact hx
            · exact ih.mp h y hy'
          · intro _; trivial
      · constructor
        · intro hnone; cases hnone
        · intro hall
          have hxs : ∀ y ∈ xs, ¬ (2 : ℚ) < y :=
            fun y hy => hall y (List.mem_cons_of_mem x hy)
          rw [ih.mpr hxs] at h; cases h

/-- A successful reduceLast splits the list around the last element
exceeding 2, which is replaced by 2. -/
lemma reduceLast_eq_some {w w' : List ℚ} (h : reduceLast w = some w') :
    ∃ w1 x w2, w = w1 ++ x :: w2 ∧ (2 : ℚ) < x ∧ w' = w1 ++ 2 :: w2 ∧
      ∀ y ∈ w2, ¬ (2 : ℚ) < y := by
  induction w generalizing w' with
  | nil => simp [reduceLast] at h
  | cons a xs ih =>
      simp only [reduceLast] at h
      rcases hx : reduceLast xs with _ | xs'
      · rw [hx] at h
        by_cases ha : (2 : ℚ) < a
        · rw [if_pos ha] at h
          refine ⟨[], a, xs, by simp, ha, by simpa using h.symm, ?_⟩
          exact reduceLast_eq_none.mp hx
        · rw [if_neg ha] at h; cases h
      · rw [hx] at h
        obtain ⟨w1, x, w2, hsplit, hxgt, hrepl, htail⟩ := ih hx
        exact ⟨a :: w1, x, w2, by simp [hsplit], hxgt,
          by simpa [hrepl] using h.symm, htail⟩

/-- reduceLast succeeds when some element exceeds 2. -/
lemma reduceLast_isSome {w : List ℚ} (h : ∃ x ∈ w, (2 : ℚ) < x) :
    ∃ w', reduceLast w = some w' := by
  rcases hr : reduceLast w with _ | w'
  · obtain ⟨x, hx, hgt⟩ := h
    exact absurd hgt (reduceLast_eq_none.mp hr x hx)
  · exact ⟨w', rfl⟩

/-- Reduction removes exactly one element from the >2 filter. -/
lemma reduceLast_filter_length {w w' : List ℚ} (h : reduceLast w = some w') :
    (w'.filter (fun dv => dv > 2)).length + 1 =
      (w.filter (fun dv => dv > 2)).length := by
  obtain ⟨w1, x, w2, hsplit, hxgt, hrepl, htail⟩ := reduceLast_eq_some h
  have h2 : w2.filter (fun dv => dv > 2) = [] :=
    List.filter_eq_nil_iff.mpr (fun y hy => by simpa using htail y hy)
  subst hsplit hrepl
  simp [List.filter_append, h2, hxgt, gt_iff_lt]

/-- The CDV loop exits through the q ≤ 1 check whenever it has more fuel
than the number of values exceeding 2. -/
lemma cdvLoop_exits (fuel : ℕ) :
    ∀ (w acc : List ℚ), (w.filter (fun dv => dv > 2)).length < fuel →
      (cdvLoop fuel w acc).2 = ExitKind.qDone := by
  induction fuel with
  | zero => intro w acc h; cases h
  | succ n ih =>
      intro w acc h
      rw [cdvLoop]
      by_cases hq : (w.filter (fun dv => dv > 2)).length ≤ 1
      · simp [hq]
      · have hex : ∃ x ∈ w, (2 : ℚ) < x := by
          rcases hne : w.filter (fun dv => dv > 2) with _ | ⟨y, ys⟩
          · simp [hne] at hq
          · refine ⟨y, List.mem_of_mem_filter (hne ▸ List.mem_cons_self y ys), ?_⟩
            have := List.of_mem_filter (p := fun dv => decide (dv > 2))
              (hne ▸ List.mem_cons_self y ys)
            simpa using this
        obtain ⟨w', hw'⟩ := reduceLast_isSome hex
        have hlen : (w'.filter (fun dv => dv > 2)).length < n := by
          have := reduceLast_filter_length hw'
          omega
        simp only [hq, if_neg, hw']
        simpa [hq] using ih w' _ hlen

/-- The 0-or-1-significant-deducts early return of
applyMultipleDeductCorrection. -/
lemma applyMDCFull_direct {d : List ℚ} (hd : d ≠ [])
    (hcount : (d.filter (fun dv => dv > 2)).length ≤ 1) :
    applyMDCFull d = (jsMax 0 (jsMin 100 (d.foldl (· + ·) 0)), ExitKind.direct) := by
  simp only [applyMDCFull, if_neg hd, if_pos hcount]

/-- applyMultipleDeductCorrection is clamped into [0, 100] on every input. -/
lemma applyMDCFull_fst_mem (d : List ℚ) :
    0 ≤ (applyMDCFull d).1 ∧ (applyMDCFull d).1 ≤ 100 := by
  unfold applyMDCFull
  by_cases hd : d = []
  · simp [hd]
  · rw [if_neg hd]
    by_cases hc : (d.filter (fun dv => dv > 2)).length ≤ 1
    · simpa [hc] using clamp01_100_mem (d.foldl (· + ·) 0)
    · simpa [hc] using clamp01_100_mem _

/-- The loop path of applyMultipleDeductCorrection always exits through the
q ≤ 1 check: the retained list has at most 11 entries, far below the
20-pass cap, and q shrinks by one per pass. -/
lemma applyMDCFull_snd (d : List ℚ) :
    (applyMDCFull d).2 = ExitKind.direct ∨ (applyMDCFull d).2 = ExitKind.qDone := by
  unfold applyMDCFull
  by_cases hd : d = []
  · simp [hd]
  · rw [if_neg hd]
    by_cases hc : (d.filter (fun dv => dv > 2)).length ≤ 1
    · simp [hc]
    · right
      simp only [hc, if_false]
      set sortedDeducts := d.insertionSort (fun a b => b ≤ a) with hsorted
      set m := jsMin 10 (1 + 9 / 98 * (100 - sortedDeducts.headD 0)) with hm
      set w := sortedDeducts.take (⌊m⌋ : ℤ).toNat ++
        (if 0 < m - ⌊m⌋ ∧ (⌊m⌋ : ℤ).toNat < sortedDeducts.length
          then [sortedDeducts.getD (⌊m⌋ : ℤ).toNat 0 * (m - ⌊m⌋)] else []) with hw
      have hfloor : (⌊m⌋ : ℤ) ≤ 10 := by
        have h10 : m ≤ 10 := jsMin_le_left 10 _
        calc (⌊m⌋ : ℤ) ≤ ⌊(10 : ℚ)⌋ := Int.floor_le_floor h10
        _ = 10 := by norm_num
      have hlen : (w.filter (fun dv => dv > 2)).length < 20 := by
        have h1 : (w.filter (fun dv => dv > 2)).length ≤ w.length :=
          List.length_filter_le _ w
        have h2 : w.length ≤ (⌊m⌋ : ℤ).toNat + 1 := by
          rw [hw, List.length_append]
          have := List.length_take_le (⌊m⌋ : ℤ).toNat sortedDeducts
          split <;> simp <;> omega
        omega
      exact cdvLoop_exits 20 w [] hlen

/-- The claim C9's theorem, see below; split out so the claim theorem can
state everything in one conjunction. -/
lemma applyMDC_range (d : List ℚ) :
    0 ≤ applyMultipleDeductCorrection d ∧ applyMultipleDeductCorrection d ≤ 100 :=
  applyMDCFull_fst_mem d

/-- C8: For every input list in which at most one deduct value exceeds 2.0,
applyMultipleDeductCorrection returns min(100, sum of all deducts) directly
with no correction (nonnegativity of deduct values makes the JS max(0, __)
clamp vacuous); in particular the empty list gives 0, [5] gives 5, and
[3, 1.5] gives 4.5. -/
theorem claim_C8 :
    (∀ d : List ℚ, (∀ x ∈ d, 0 ≤ x) →
      (d.filter (fun dv => dv > 2)).length ≤ 1 →
      applyMultipleDeductCorrection d = jsMin 100 (d.foldl (· + ·) 0) ∧
      (applyMDCFull d).2 = ExitKind.direct)
    ∧ applyMultipleDeductCorrection [] = 0
    ∧ applyMultipleDeductCorrection [5] = 5
    ∧ applyMultipleDeductCorrection [3, 3/2] = 9/2 := by
  refine ⟨?_, by decide, by decide, by decide⟩
  intro d hnn hcount
  by_cases hd : d = []
  · subst hd
    constructor
    · show (applyMDCFull []).1 = _
      simp [applyMDCFull, jsMin]
    · simp [applyMDCFull]
  · have hdir := applyMDCFull_direct hd hcount
    have hsum : (0 : ℚ) ≤ d.foldl (· + ·) 0 :=
      foldl_add_nonneg le_rfl hnn
    constructor
    · show (applyMDCFull d).1 = _
      rw [hdir]
      exact jsMax_zero_of_nonneg (le_jsMin (by norm_num) hsum)
    · rw [hdir]

/-- Witness for C8 at the concrete input [3, 1.5]. -/
theorem claim_C8_witness :
    applyMultipleDeductCorrection [3, 3/2] = jsMin 100 ([3, 3/2].foldl (· + ·) 0) ∧
    (applyMDCFull [3, 3/2]).2 = ExitKind.direct :=
  claim_C8.1 [3, 3/2] (by decide) (by decide)

/-- C9: For every list of non-negative deduct values (deduct values lie in
[0, 100]), applyMultipleDeductCorrection returns a value in [0, 100], and
its iterative loop exits only through the q ≤ 1 condition, never through
the 20-iteration safety cap; the internal cannot-find-a-deduct-to-reduce
branch is unreachable. -/
theorem claim_C9 (d : List ℚ) (hd : ∀ x ∈ d, 0 ≤ x ∧ x ≤ 100) :
    (0 ≤ applyMultipleDeductCorrection d ∧ applyMultipleDeductCorrection d ≤ 100)
    ∧ ((applyMDCFull d).2 = ExitKind.direct ∨ (applyMDCFull d).2 = ExitKind.qDone)
    ∧ (applyMDCFull d).2 ≠ ExitKind.noReduce
    ∧ (applyMDCFull d).2 ≠ ExitKind.fuelOut := by
  refine ⟨applyMDC_range d, applyMDCFull_snd d, ?_, ?_⟩ <;>
    rcases applyMDCFull_snd d with h | h <;> simp [h]

/-- Witness for C9 at the concrete input [50, 30, 20, 1]. -/
theorem claim_C9_witness :
    (0 ≤ applyMultipleDeductCorrection [50, 30, 20, 1] ∧
      applyMultipleDeductCorrection [50, 30, 20, 1] ≤ 100)
    ∧ ((applyMDCFull [50, 30, 20, 1]).2 = ExitKind.direct ∨
        (applyMDCFull [50, 30, 20, 1]).2 = ExitKind.qDone)
    ∧ (applyMDCFull [50, 30, 20, 1]).2 ≠ ExitKind.noReduce
    ∧ (applyMDCFull [50, 30, 20, 1]).2 ≠ ExitKind.fuelOut :=
  claim_C9 [50, 30, 20, 1] (by decide)

/-- C5: track_damage counts exactly the defects that are not sealed_crack
and whose frame's speed is unknown or at least 5 mph; a defect with a known
speed below 5 contributes nothing.  defect_type values are the lowercase
enum of the data model, stated here as the asciiLower fixed-point
hypothesis (the JS code lowercases before comparing). -/
theorem claim_C5 (speedOf : ℤ → Option ℚ) (defects : List SBDefect)
    (hlower : ∀ d ∈ defects, asciiLower d.defect_type = d.defect_type) :
    computeTrackDamage speedOf defects =
      (defects.filter (countsAsDamage speedOf)).length ∧
    ∀ d ∈ defects, ∀ s, d.frame_id.bind speedOf = some s → s < 5 →
      countsAsDamage speedOf d = false := by
  have hstep : ∀ (n : ℕ) (d : SBDefect), asciiLower d.defect_type = d.defect_type →
      damageStep speedOf n d = if countsAsDamage speedOf d then n + 1 else n := by
    intro n d hd
    unfold damageStep countsAsDamage
    rw [hd]
    by_cases hty : d.defect_type = "sealed_crack"
    · simp [hty]
    · rcases hfs : d.frame_id.bind speedOf with _ | s
      · simp [hty, hfs]
      · by_cases hsp : (5 : ℚ) ≤ s <;> simp [hty, hfs, hsp, ge_iff_le]
  constructor
  · have main : ∀ (l : List SBDefect) (n : ℕ),
        (∀ d ∈ l, asciiLower d.defect_type = d.defect_type) →
        l.foldl (damageStep speedOf) n =
          n + (l.filter (countsAsDamage speedOf)).length := by
      intro l
      induction l with
      | nil => intro n _; simp
      | cons d ds ih =>
          intro n hl
          have hd := hl d (List.mem_cons_self d ds)
          have hds := fun x hx => hl x (List.mem_cons_of_mem d hx)
          simp only [List.foldl_cons, List.filter_cons, hstep n d hd]
          by_cases hc : countsAsDamage speedOf d
          · simp only [hc, if_pos, ih (n + 1) hds]
            simp only [hc, if_pos, List.length_cons]
            omega
          · simp [hc, ih n hds]
    simpa using main defects 0 hlower
  · intro d _ s hs hlt
    simp [countsAsDamage, hs, not_le.mpr hlt]

/-- Witness for C5: one sealed crack, one slow-frame defect, one counted
defect. -/
theorem claim_C5_witness :
    computeTrackDamage (fun f => if f = 1 then some 3 else none)
        [⟨"sealed_crack", some 2⟩, ⟨"alligator", some 1⟩, ⟨"transverse", some 2⟩] =
      ([⟨"sealed_crack", some 2⟩, ⟨"alligator", some 1⟩,
        (⟨"transverse", some 2⟩ : SBDefect)].filter
          (countsAsDamage (fun f => if f = 1 then some 3 else none))).length :=
  (claim_C5 (fun f => if f = 1 then some 3 else none) _ (by decide)).1

lemma weightedTotal_eq (i : ℕ) (l : List (String × ℚ)) :
    weightedTotal i l = weightedTotalQ i (l.map Prod.snd) := by
  induction l generalizing i with
  | nil => rfl
  | cons x xs ih => simp [weightedTotal, weightedTotalQ, ih]

lemma sortDesc_perm_eq {l1 l2 : List ℚ} (hp : l1.Perm l2) :
    l1.insertionSort (fun a b => b ≤ a) = l2.insertionSort (fun a b => b ≤ a) := by
  haveI : IsTotal ℚ (fun a b => b ≤ a) := ⟨fun a b => le_total b a⟩
  haveI : IsTrans ℚ (fun a b => b ≤ a) := ⟨fun a b c hab hbc => le_trans hbc hab⟩
  haveI : IsAntisymm ℚ (fun a b => b ≤ a) := ⟨fun a b hab hba => le_antisymm hba hab⟩
  exact List.eq_of_perm_of_sorted
    (((List.perm_insertionSort _ l1).trans hp).trans (List.perm_insertionSort _ l2).symm)
    (List.sorted_insertionSort _ l1) (List.sorted_insertionSort _ l2)

lemma map_snd_sortPairs (l : List (String × ℚ)) :
    (l.insertionSort (fun a b => b.2 ≤ a.2)).map Prod.snd =
      (l.map Prod.snd).insertionSort (fun a b => b ≤ a) :=
  List.map_insertionSort (r := fun a b : String × ℚ => b.2 ≤ a.2)
    (s := fun a b : ℚ => b ≤ a) Prod.snd l (fun a _ b _ => Iff.rfl)

lemma perm5 (A T L S P : List ℚ) :
    (A ++ T ++ L ++ S ++ P).Perm (A ++ P ++ L ++ T ++ S) := by
  rw [← Multiset.coe_eq_coe]
  simp only [← Multiset.coe_add]
  abel

lemma calculatePCI_score_eq (powf : ℚ → ℚ → ℚ) (p : PixelPercentageData) :
    (calculatePCI powf p).pci_score = pciSpecScore powf p := by
  simp only [calculatePCI, pciSpecScore]
  rw [jsMin_comm 80 (28 * powf (p.alligator.getD 0) (45 / 100)),
    jsMin_comm 100 (100 * powf (p.pothole.getD 0) (3 / 5)),
    jsMin_comm 40 (8 * powf (p.longitudinal.getD 0) (13 / 20)),
    jsMin_comm 40 (15 / 2 * powf (p.transverse.getD 0) (3 / 5)),
    jsMin_comm 15 (3 * powf (p.sealed_crack.getD 0) (1 / 2)),
    weightedTotal_eq, map_snd_sortPairs]
  simp only [List.map_append, apply_ite (List.map (Prod.snd (α := String) (β := ℚ))),
    List.map_cons, List.map_nil]
  rw [sortDesc_perm_eq (perm5 _ _ _ _ _)]

lemma calculatePCI_allZero (powf : ℚ → ℚ → ℚ) :
    (calculatePCI powf {}).pci_score = 100 ∧
    (calculatePCI powf {}).pci_rating = "Good" := by
  constructor <;>
    norm_num [calculatePCI, weightedTotal, jsMin, jsMax, round1, jsRound,
      getPixelBasedPCIRating, List.insertionSort]

lemma calculatePCI_alligator1 (powf : ℚ → ℚ → ℚ) (hpow : ∀ b, powf 1 b = 1) :
    (calculatePCI powf { alligator := some 1 }).pci_score = 72 ∧
    (calculatePCI powf { alligator := some 1 }).pci_rating = "Satisfactory" := by
  constructor <;>
    norm_num [calculatePCI, hpow, weightedTotal, pciWeight, jsMin, jsMax, round1,
      jsRound, getPixelBasedPCIRating, List.insertionSort, List.orderedInsert]

/-- C2: calculatePCI computes, for each of the five defect categories with
positive density, a deduct of min(cap, a * density^b) with the fixed
per-category coefficients, sorts descending, applies the diminishing
weights 1.0/0.7/0.4/0.1..., clamps to 100 and returns max(0, 100 - total)
rounded to one decimal; all-zero densities give 100 with the top pixel band
"Good", and alligator density 1 alone gives 72.0 and "Satisfactory"
(Math.pow, written powf, satisfies powf 1 b = 1). -/
theorem claim_C2 (powf : ℚ → ℚ → ℚ) :
    (∀ p, (calculatePCI powf p).pci_score = pciSpecScore powf p)
    ∧ ((calculatePCI powf {}).pci_score = 100 ∧
        (calculatePCI powf {}).pci_rating = "Good")
    ∧ ((∀ b, powf 1 b = 1) →
        (calculatePCI powf { alligator := some 1 }).pci_score = 72 ∧
        (calculatePCI powf { alligator := some 1 }).pci_rating = "Satisfactory") :=
  ⟨calculatePCI_score_eq powf, calculatePCI_allZero powf, calculatePCI_alligator1 powf⟩

/-- Witness for C2 with powf instantiated to a concrete function that is 1
at 1. -/
theorem claim_C2_witness :
    (calculatePCI (fun x _ => x) { pothole := some 4 }).pci_score =
      pciSpecScore (fun x _ => x) { pothole := some 4 } ∧
    (calculatePCI (fun x _ => x) { alligator := some 1 }).pci_score = 72 ∧
    (calculatePCI (fun x _ => x) { alligator := some 1 }).pci_rating = "Satisfactory" :=
  ⟨(claim_C2 (fun x _ => x)).1 _, ((claim_C2 (fun x _ => x)).2.2 (fun _ => rfl)).1,
    ((claim_C2 (fun x _ => x)).2.2 (fun _ => rfl)).2⟩


/-- C7 as frozen is false on the code: in 'data' mode with no detection
array and a stated count of 5, the final detection_count_in_frame is 1 (the
deduplication pass overwrites the max(stated, 1) value with the array
length), not max(5, 1) = 5. -/
theorem claim_C7_counterexample :
    (normalizeFeatureProperties .data
        { detection_count_in_frame := some 5 }).detection_count_in_frame = some 1 ∧
    jsMax 5 1 = 5 ∧ (some (5 : ℚ) : Option ℚ) ≠ some 1 := by
  refine ⟨?_, by decide, by decide⟩
  decide

/-- C7 amended: in 'data' mode the function synthesizes a single-element
all_detections_in_frame array when the record has no non-empty detection
array; max(stated count, 1) is only the provisional count, and the final
detection_count_in_frame always equals the length of the final
(deduplicated) all_detections_in_frame array — 1 in the synthesized case;
in the non-flat mode the count equals the final array length when it was
not already stated. -/
theorem claim_C7 (p : FeatureProps) :
    ((p.all_detections_in_frame = none ∨ p.all_detections_in_frame = some []) →
      (normalizeFeatureProperties .data p).all_detections_in_frame =
          some [synthesizedDetection p] ∧
      (normalizeFeatureProperties .data p).detection_count_in_frame = some 1)
    ∧ (∀ l, (normalizeFeatureProperties .data p).all_detections_in_frame = some l →
        (normalizeFeatureProperties .data p).detection_count_in_frame =
          some ((l.length : ℚ)))
    ∧ (p.detection_count_in_frame = none → ∀ l₀,
        p.all_detections_in_frame = some l₀ → ∀ l,
        (normalizeFeatureProperties .metadata p).all_detections_in_frame = some l →
        (normalizeFeatureProperties .metadata p).detection_count_in_frame =
          some ((l.length : ℚ))) := by
  refine ⟨?_, ?_, ?_⟩
  · intro hempty
    rcases hempty with h | h <;>
      simp [normalizeFeatureProperties, h, dedupeDetectionsArray]
  · intro l hl
    rcases hall : p.all_detections_in_frame with _ | l₀
    · simp only [normalizeFeatureProperties, hall, Option.some.injEq] at hl ⊢
      simp [← hl]
    · by_cases h0 : l₀ = [] <;>
        · simp only [normalizeFeatureProperties, hall, h0, if_true, if_false,
            Option.some.injEq, ite_true, ite_false] at hl ⊢
          simp [← hl]
  · intro hc l₀ hall l hl
    simp only [normalizeFeatureProperties, hall, hc, Option.some.injEq] at hl ⊢
    simp [← hl]

/-- Witness for C7 at a record with a stated count and a two-element
detection array containing a duplicate. -/
theorem claim_C7_witness :
    (normalizeFeatureProperties .data
        { detection_count_in_frame := some 7,
          all_detections_in_frame :=
            some [{ defect_id := some "a" }, { defect_id := some "a" }]
          }).detection_count_in_frame = some 1 := by
  have h := (claim_C7
    { detection_count_in_frame := some 7,
      all_detections_in_frame :=
        some [{ defect_id := some "a" }, { defect_id := some "a" }] }).2.1
  exact h [{ defect_id := some "a" }] (by decide)

/-- Damage recorded in the segmentData map under key k. -/
def bucketDamage (sd : List ((String × ℕ) × SegBucket)) (k : String × ℕ) : ℕ :=
  ((sd.filter (fun e => e.1 = k)).map (fun e => e.2.damage)).sum

/-- Damage recorded in the segmentData map over all segments. -/
def totalDamage (sd : List ((String × ℕ) × SegBucket)) : ℕ :=
  (sd.map (fun e => e.2.damage)).sum

lemma bucketDamage_cons (k0 k2 : String × ℕ) (b : SegBucket)
    (rest : List ((String × ℕ) × SegBucket)) :
    bucketDamage ((k0, b) :: rest) k2 =
      (if k0 = k2 then b.damage else 0) + bucketDamage rest k2 := by
  simp only [bucketDamage, List.filter_cons]
  split <;> simp_all

lemma bucketDamage_addChild (sd : List ((String × ℕ) × SegBucket))
    (k k2 : String × ℕ) (c : SBChild) :
    bucketDamage (addChildToSegment sd k c) k2 =
      bucketDamage sd k2 + (if k2 = k then c.track_damage else 0) := by
  induction sd with
  | nil =>
      simp only [addChildToSegment, bucketDamage_cons]
      by_cases h : k = k2 <;> simp [h, eq_comm, bucketDamage]
  | cons e rest ih =>
      obtain ⟨k0, b⟩ := e
      simp only [addChildToSegment]
      by_cases h0 : k0 = k
      · subst h0
        rw [if_pos rfl, bucketDamage_cons, bucketDamage_cons]
        dsimp only
        by_cases h2 : k0 = k2
        · subst h2
          rw [if_pos rfl, if_pos rfl, if_pos rfl]
          omega
        · rw [if_neg h2, if_neg h2, if_neg (fun h => h2 h.symm)]
          omega
      · rw [if_neg h0, bucketDamage_cons, bucketDamage_cons, ih]
        split_ifs <;> omega

lemma totalDamage_addChild (sd : List ((String × ℕ) × SegBucket))
    (k : String × ℕ) (c : SBChild) :
    totalDamage (addChildToSegment sd k c) = totalDamage sd + c.track_damage := by
  induction sd with
  | nil => simp [addChildToSegment, totalDamage]
  | cons e rest ih =>
      obtain ⟨k0, b⟩ := e
      by_cases h0 : k0 = k <;> simp [addChildToSegment, totalDamage, h0] at ih ⊢ <;>
        omega

lemma bucketDamage_foldChildren (children : List SBChild) (k k2 : String × ℕ)
    (sd : List ((String × ℕ) × SegBucket)) :
    bucketDamage (children.foldl (fun sd c => addChildToSegment sd k c) sd) k2 =
      bucketDamage sd k2 +
        (if k2 = k then (children.map (fun c => c.track_damage)).sum else 0) := by
  induction children generalizing sd with
  | nil => simp
  | cons c cs ih =>
      simp only [List.foldl_cons, ih, bucketDamage_addChild, List.map_cons, List.sum_cons]
      split <;> omega

lemma totalDamage_foldChildren (children : List SBChild) (k : String × ℕ)
    (sd : List ((String × ℕ) × SegBucket)) :
    totalDamage (children.foldl (fun sd c => addChildToSegment sd k c) sd) =
      totalDamage sd + (children.map (fun c => c.track_damage)).sum := by
  induction children generalizing sd with
  | nil => simp
  | cons c cs ih =>
      simp only [List.foldl_cons, ih, totalDamage_addChild, List.map_cons, List.sum_cons]
      omega

lemma insertUnique_nodup {l : List ℕ} (h : l.Nodup) (x : ℕ) :
    (insertUnique l x).Nodup := by
  unfold insertUnique
  split
  · exact h
  · next hx => simpa [List.nodup_append, hx] using h

lemma dedupFirst_nodup (l : List ℕ) : (dedupFirst l).Nodup := by
  have : ∀ acc : List ℕ, acc.Nodup → (l.foldl insertUnique acc).Nodup := by
    induction l with
    | nil => intro acc h; simpa
    | cons x xs ih => intro acc h; exact ih _ (insertUnique_nodup h x)
  exact this [] List.nodup_nil

lemma insertUnique_mem {l : List ℕ} {x y : ℕ} :
    y ∈ insertUnique l x ↔ y ∈ l ∨ y = x := by
  unfold insertUnique
  split
  · next h => constructor
              · exact Or.inl
              · rintro (hy | rfl)
                · exact hy
                · exact h
  · simp

lemma dedupFirst_mem {l : List ℕ} {y : ℕ} : y ∈ dedupFirst l ↔ y ∈ l := by
  have : ∀ acc : List ℕ, y ∈ l.foldl insertUnique acc ↔ y ∈ acc ∨ y ∈ l := by
    induction l with
    | nil => intro acc; simp
    | cons x xs ih =>
        intro acc
        rw [List.foldl_cons, ih, insertUnique_mem]
        simp only [List.mem_cons]
        tauto
  simpa using this []

lemma bucketDamage_foldSegs (segs : List ℕ) (hnd : segs.Nodup) (jobId : String)
    (c : SBChild) (k2 : String × ℕ) (sd : List ((String × ℕ) × SegBucket)) :
    bucketDamage (segs.foldl (fun sd s => addChildToSegment sd (jobId, s) c) sd) k2 =
      bucketDamage sd k2 +
        (if k2.1 = jobId ∧ k2.2 ∈ segs then c.track_damage else 0) := by
  induction segs generalizing sd with
  | nil => simp
  | cons s ss ih =>
      have hnd' := (List.nodup_cons.mp hnd).2
      have hs : s ∉ ss := (List.nodup_cons.mp hnd).1
      simp only [List.foldl_cons, ih hnd', bucketDamage_addChild]
      by_cases h1 : k2.1 = jobId
      · by_cases h2 : k2.2 = s
        · have : k2 = (jobId, s) := Prod.ext h1 h2
          simp [this, h2, hs, h1]
        · have : k2 ≠ (jobId, s) := fun h => h2 (by simp [h])
          simp only [this, if_neg, List.mem_cons, h1, true_and]
          rcases em (k2.2 ∈ ss) with hm | hm <;> simp [hm, h2]
      · have : k2 ≠ (jobId, s) := fun h => h1 (by simp [h])
        simp [this, h1]

lemma totalDamage_foldSegs (segs : List ℕ) (jobId : String) (c : SBChild)
    (sd : List ((String × ℕ) × SegBucket)) :
    totalDamage (segs.foldl (fun sd s => addChildToSegment sd (jobId, s) c) sd) =
      totalDamage sd + segs.length * c.track_damage := by
  induction segs generalizing sd with
  | nil => simp
  | cons s ss ih =>
      simp only [List.foldl_cons, ih, totalDamage_addChild, List.length_cons]
      ring



lemma bucketDamage_foldChildrenMulti (children : List SBChild)
    (f : SBChild → List ℕ) (hnd : ∀ c, (f c).Nodup) (jobId : String)
    (k2 : String × ℕ) (sd : List ((String × ℕ) × SegBucket)) :
    bucketDamage
        (children.foldl
          (fun sd c => (f c).foldl (fun sd s => addChildToSegment sd (jobId, s) c) sd)
          sd) k2 =
      bucketDamage sd k2 +
        (children.map (fun c =>
          if k2.1 = jobId ∧ k2.2 ∈ f c then c.track_damage else 0)).sum := by
  induction children generalizing sd with
  | nil => simp
  | cons c cs ih =>
      simp only [List.foldl_cons, ih, bucketDamage_foldSegs (f c) (hnd c),
        List.map_cons, List.sum_cons]
      omega

lemma totalDamage_foldChildrenMulti (children : List SBChild)
    (f : SBChild → List ℕ) (jobId : String)
    (sd : List ((String × ℕ) × SegBucket)) :
    totalDamage
        (children.foldl
          (fun sd c => (f c).foldl (fun sd s => addChildToSegment sd (jobId, s) c) sd)
          sd) =
      totalDamage sd + (children.map (fun c => (f c).length * c.track_damage)).sum := by
  induction children generalizing sd with
  | nil => simp
  | cons c cs ih =>
      simp only [List.foldl_cons, ih, totalDamage_foldSegs, List.map_cons,
        List.sum_cons]
      omega

/-- C4: with no segment mapping (or a parent whose frame-id span maps to at
most one segment) every child's full track_damage is added to exactly one
segment — segment 0 when the span maps to none; when the parent spans
multiple segments, each child is assigned individually to every segment its
own frame ids touch (full damage duplicated into each, with the parent's
first segment as fallback for a child touching none), so the total damage
attributed across all segments is at least the single-segment total. -/
theorem claim_C4 (jobMappings : String → Option JobMapping)
    (sd : List ((String × ℕ) × SegBucket)) (p : SBParent) :
    (jobMappings (p.job_id.getD "") = none →
      ∀ k, bucketDamage (processParent jobMappings sd p) k =
        bucketDamage sd k +
          (if k = (p.job_id.getD "", 0)
            then (p.children.map (fun c => c.track_damage)).sum else 0))
    ∧ (∀ jm, jobMappings (p.job_id.getD "") = some jm →
        (getTrackSegments p.frame_ids jm.frameToSegment).length ≤ 1 →
        ∀ k, bucketDamage (processParent jobMappings sd p) k =
          bucketDamage sd k +
            (if k = (p.job_id.getD "",
                (getTrackSegments p.frame_ids jm.frameToSegment).headD 0)
              then (p.children.map (fun c => c.track_damage)).sum else 0))
    ∧ (∀ jm, jobMappings (p.job_id.getD "") = some jm →
        2 ≤ (getTrackSegments p.frame_ids jm.frameToSegment).length →
        (∀ k, bucketDamage (processParent jobMappings sd p) k =
          bucketDamage sd k +
            (p.children.map (fun c =>
              if k.1 = p.job_id.getD "" ∧ k.2 ∈
                  (if getTrackSegments c.frame_ids jm.frameToSegment = []
                    then [(getTrackSegments p.frame_ids jm.frameToSegment).headD 0]
                    else getTrackSegments c.frame_ids jm.frameToSegment)
                then c.track_damage else 0)).sum)
        ∧ ∀ c ∈ p.children, ∀ s ∈ getTrackSegments c.frame_ids jm.frameToSegment,
            s ∈ (if getTrackSegments c.frame_ids jm.frameToSegment = []
              then [(getTrackSegments p.frame_ids jm.frameToSegment).headD 0]
              else getTrackSegments c.frame_ids jm.frameToSegment))
    ∧ totalDamage (processParent jobMappings sd p) ≥
        totalDamage sd + (p.children.map (fun c => c.track_damage)).sum := by
  refine ⟨?_, ?_, ?_, ?_⟩
  · intro hm k
    simp only [processParent, hm]
    exact bucketDamage_foldChildren p.children _ k sd
  · intro jm hm hlen k
    simp only [processParent, hm, if_pos hlen]
    exact bucketDamage_foldChildren p.children _ k sd
  · intro jm hm hlen
    have hlen' : ¬ (getTrackSegments p.frame_ids jm.frameToSegment).length ≤ 1 := by
      omega
    constructor
    · intro k
      simp only [processParent, hm, if_neg hlen']
      exact bucketDamage_foldChildrenMulti p.children
        (fun c => if getTrackSegments c.frame_ids jm.frameToSegment = []
          then [(getTrackSegments p.frame_ids jm.frameToSegment).headD 0]
          else getTrackSegments c.frame_ids jm.frameToSegment)
        (fun c => by
          by_cases hc : getTrackSegments c.frame_ids jm.frameToSegment = []
          · simp [hc]
          · simp only [hc, if_neg, if_false, ite_false]
            exact dedupFirst_nodup _)
        _ k sd
    · intro c _ s hs
      have hne : getTrackSegments c.frame_ids jm.frameToSegment ≠ [] :=
        List.ne_nil_of_mem hs
      simpa [hne] using hs
  · rcases hm : jobMappings (p.job_id.getD "") with _ | jm
    · simp only [processParent, hm, totalDamage_foldChildren, ge_iff_le, le_refl]
    · by_cases hlen : (getTrackSegments p.frame_ids jm.frameToSegment).length ≤ 1
      · simp only [processParent, hm, if_pos hlen, totalDamage_foldChildren,
          ge_iff_le, le_refl]
      · simp only [processParent, hm, if_neg hlen, totalDamage_foldChildrenMulti,
          ge_iff_le]
        have hpt : ∀ c ∈ p.children, c.track_damage ≤
            (if getTrackSegments c.frame_ids jm.frameToSegment = []
              then [(getTrackSegments p.frame_ids jm.frameToSegment).headD 0]
              else getTrackSegments c.frame_ids jm.frameToSegment).length *
              c.track_damage := by
          intro c _
          have h1 : 1 ≤ (if getTrackSegments c.frame_ids jm.frameToSegment = []
              then [(getTrackSegments p.frame_ids jm.frameToSegment).headD 0]
              else getTrackSegments c.frame_ids jm.frameToSegment).length := by
            split
            · simp
            · next hne => exact List.length_pos.mpr hne
          calc c.track_damage = 1 * c.track_damage := (one_mul _).symm
          _ ≤ _ := Nat.mul_le_mul_right _ h1
        exact add_le_add_left (List.sum_le_sum hpt) _

/-- Witness for C4: a parent spanning two segments with one child touching
only the first. -/
theorem claim_C4_witness :
    bucketDamage
        (processParent
          (fun _ => some ⟨fun f => if f = 0 then some 0
            else if f = 1 then some 1 else none, fun _ => none⟩)
          []
          ⟨7, none, [0, 1], [⟨3, 2, [0], []⟩]⟩) ("", 0) =
      bucketDamage [] ("", 0) + 2 := by
  have h := ((claim_C4
    (fun _ => some ⟨fun f => if f = 0 then some 0
      else if f = 1 then some 1 else none, fun _ => none⟩)
    []
    ⟨7, none, [0, 1], [⟨3, 2, [0], []⟩]⟩).2.2.1
      ⟨fun f => if f = 0 then some 0 else if f = 1 then some 1 else none,
        fun _ => none⟩
      rfl (by decide)).1 ("", 0)
  rw [h]
  decide

/-- calculatePCI on an empty pixel record: score 100, rating Good, zero
deduct total and zero breakdown. -/
lemma calculatePCI_empty (powf : ℚ → ℚ → ℚ) :
    calculatePCI powf {} =
      { pci_score := 100, pci_rating := "Good", total_deduct_value := 0,
        deduct_breakdown := ⟨0, 0, 0, 0⟩, damage_percentage := 0 } := by
  norm_num [calculatePCI, weightedTotal, jsMin, jsMax, round1, jsRound,
    getPixelBasedPCIRating, List.insertionSort]

/-- C10 as frozen is false on the code: a bucket whose geometry does not
resolve (no GPS mapping and an empty first-track coordinate list) is
dropped entirely, even though its job has no video-segment entry and its
damage count is 3 — no feature is emitted at all, where the claim promises
one with pci_score 100. -/
theorem claim_C10_counterexample :
    (fun _ : String => (none : Option (List VideoSegment))) "" = none ∧
    [((("", 0), ⟨3, [⟨1, 3, [], []⟩]⟩) : (String × ℕ) × SegBucket)] ≠ [] ∧
    emitSegments (fun _ _ => 0) (fun _ => none) (fun _ => none)
      [(("", 0), ⟨3, [⟨1, 3, [], []⟩]⟩)] = [] := by
  refine ⟨rfl, by decide, ?_⟩
  decide

/-- C10 amended: a segment bucket whose job has no matching video-segment
entry (or whose match carries no pixel percentages) still runs calculatePCI
on the empty pixel record and is emitted — provided its geometry resolves
(GPS segment coordinates or a first contributing track with coordinates;
otherwise the bucket is dropped before any PCI computation) — carrying
pci_score 100, rating Good, zero total deduct and an all-zero breakdown,
whatever its damage count. -/
theorem claim_C10 (powf : ℚ → ℚ → ℚ) (jobMappings : String → Option JobMapping)
    (videoSegments : String → Option (List VideoSegment))
    (sd : List ((String × ℕ) × SegBucket)) (k : String × ℕ) (b : SegBucket)
    (he : (k, b) ∈ sd)
    (hpix : ((videoSegments k.1).bind
        (fun segs => segs.find? (fun s => s.segment_id = (k.2 : ℤ) + 1))).bind
        (fun ms => ms.pixel_percentage_with_projections) = none)
    (hgeo : (jobMappings k.1).bind (fun jm => jm.segmentCoords k.2) ≠ none ∨
      ∃ t ts, b.tracks = t :: ts ∧ t.coordinates ≠ []) :
    ∃ f, emitOne powf jobMappings videoSegments (k, b) = some f ∧
      f ∈ emitSegments powf jobMappings videoSegments sd ∧
      f.job_id = k.1 ∧ f.segment_id = (k.2 : ℤ) + 1 ∧ f.damage_count = b.damage ∧
      f.pci_score = 100 ∧ f.pci_rating = "Good" ∧ f.total_deduct_value = 0 ∧
      f.deduct_breakdown = ⟨0, 0, 0, 0⟩ := by
  suffices h : ∃ coords, emitOne powf jobMappings videoSegments (k, b) =
      some { job_id := k.1, segment_id := (k.2 : ℤ) + 1, damage_count := b.damage,
             start_feet := k.2 * 528, end_feet := (k.2 + 1) * 528, geometry := coords,
             pci_score := 100, pci_rating := "Good", total_deduct_value := 0,
             deduct_breakdown := ⟨0, 0, 0, 0⟩ } by
    obtain ⟨coords, hemit⟩ := h
    exact ⟨_, hemit, List.mem_filterMap.mpr ⟨(k, b), he, hemit⟩,
      rfl, rfl, rfl, rfl, rfl, rfl, rfl⟩
  have hpci : calculatePCI powf
      (match (videoSegments k.1).bind
        (fun segs => segs.find? (fun s => s.segment_id = (k.2 : ℤ) + 1)) with
      | some matchingSegment =>
          matchingSegment.pixel_percentage_with_projections.getD {}
      | none => ({} : PixelPercentageData)) =
      { pci_score := 100, pci_rating := "Good", total_deduct_value := 0,
        deduct_breakdown := ⟨0, 0, 0, 0⟩, damage_percentage := 0 } := by
    cases ho : (videoSegments k.1).bind
        (fun segs => segs.find? (fun s => s.segment_id = (k.2 : ℤ) + 1)) with
    | none => exact calculatePCI_empty powf
    | some ms =>
        rw [ho] at hpix
        simp only [Option.some_bind] at hpix
        simp only [hpix, Option.getD_none]
        exact calculatePCI_empty powf
  simp only [emitOne]
  cases hsc : (jobMappings k.1).bind (fun jm => jm.segmentCoords k.2) with
  | some sc =>
      refine ⟨[sc.1, sc.2], ?_⟩
      simp only [hpci]
  | none =>
      rcases hgeo with hg | ⟨t, ts, htr, hc⟩
      · exact absurd hsc hg
      · refine ⟨t.coordinates, ?_⟩
        rw [htr]
        simp only [hc, if_neg, ite_false, hpci]

/-- Witness for C10: one bucket with track coordinates, no video data. -/
theorem claim_C10_witness :
    ∃ f, emitOne (fun _ _ => 0) (fun _ => none) (fun _ => none)
        (("", 0), ⟨5, [⟨1, 5, [], [(0, 0), (1, 1)]⟩]⟩) = some f ∧
      f ∈ emitSegments (fun _ _ => 0) (fun _ => none) (fun _ => none)
          [(("", 0), ⟨5, [⟨1, 5, [], [(0, 0), (1, 1)]⟩]⟩)] ∧
      f.job_id = "" ∧ f.segment_id = 1 ∧ f.damage_count = 5 ∧
      f.pci_score = 100 ∧ f.pci_rating = "Good" ∧ f.total_deduct_value = 0 ∧
      f.deduct_breakdown = ⟨0, 0, 0, 0⟩ :=
  claim_C10 (fun _ _ => 0) (fun _ => none) (fun _ => none) _ ("", 0)
    ⟨5, [⟨1, 5, [], [(0, 0), (1, 1)]⟩]⟩ (List.mem_singleton.mpr rfl) rfl
    (Or.inr ⟨⟨1, 5, [], [(0, 0), (1, 1)]⟩, [], rfl, by decide⟩)

end CivicScan
namespace CivicScan

lemma jsMin_eq_or (a b : ℚ) : jsMin a b = a ∨ jsMin a b = b := by
  unfold jsMin; split <;> simp

lemma foldl_jsMin_le (xs : List ℚ) (a : ℚ) :
    xs.foldl jsMin a ≤ a ∧ ∀ x ∈ xs, xs.foldl jsMin a ≤ x := by
  induction xs generalizing a with
  | nil => simp
  | cons y ys ih =>
      obtain ⟨h1, h2⟩ := ih (jsMin a y)
      refine ⟨le_trans h1 (jsMin_le_left a y), ?_⟩
      intro x hx
      rcases List.mem_cons.mp hx with rfl | hx'
      · exact le_trans h1 (jsMin_le_right a x)
      · exact h2 x hx'

lemma foldl_jsMin_mem (xs : List ℚ) (a : ℚ) :
    xs.foldl jsMin a = a ∨ xs.foldl jsMin a ∈ xs := by
  induction xs generalizing a with
  | nil => simp
  | cons y ys ih =>
      rcases ih (jsMin a y) with h | h
      · rcases jsMin_eq_or a y with h' | h'
        · exact Or.inl (h.trans h')
        · exact Or.inr (List.mem_cons.mpr (Or.inl (h.trans h')))
      · exact Or.inr (List.mem_cons_of_mem y h)

lemma minOver_le {l : List ℚ} {a : ℚ} (ha : a ∈ l) : minOver l ≤ a := by
  cases l with
  | nil => cases ha
  | cons x xs =>
      rcases List.mem_cons.mp ha with rfl | ha'
      · exact (foldl_jsMin_le xs a).1
      · exact (foldl_jsMin_le xs x).2 a ha'

lemma minOver_mem {l : List ℚ} (h : l ≠ []) : minOver l ∈ l := by
  cases l with
  | nil => exact absurd rfl h
  | cons x xs =>
      rcases foldl_jsMin_mem xs x with h' | h'
      · exact List.mem_cons.mpr (Or.inl h')
      · exact List.mem_cons_of_mem x h'

/-- The ordering invariant of the CDV working list: every element standing
before a value above 2 is at least that value (so the last element above 2
is also the smallest one). -/
def Pinv (w : List ℚ) : Prop :=
  w.Pairwise (fun a b => 2 < b → b ≤ a)

lemma replaceLastOcc_append (w1 : List ℚ) (x : ℚ) (w2 : List ℚ) (hx2 : x ∉ w2) :
    replaceLastOcc x (w1 ++ x :: w2) = w1 ++ 2 :: w2 := by
  induction w1 with
  | nil =>
      simp only [List.nil_append, replaceLastOcc, hx2, if_neg, ite_false, if_pos rfl]
      simp [hx2]
  | cons y w1' ih =>
      have hmem : x ∈ w1' ++ x :: w2 :=
        List.mem_append.mpr (Or.inr (List.mem_cons_self x w2))
      simp only [List.cons_append, replaceLastOcc, List.append_eq, hmem, if_pos, ih]

lemma reduceLast_eq_spec {w : List ℚ} (hP : Pinv w)
    (hne : ∃ x ∈ w, (2 : ℚ) < x) :
    reduceLast w = some (specReduceSmallest w) := by
  obtain ⟨w', hr⟩ := reduceLast_isSome hne
  obtain ⟨w1, x, w2, hsplit, hxgt, hrepl, htail⟩ := reduceLast_eq_some hr
  have hx2 : x ∉ w2 := fun hx => htail x hx hxgt
  have hmu : minOver ((w1 ++ x :: w2).filter (fun dv => dv > 2)) = x := by
    have hxf : x ∈ (w1 ++ x :: w2).filter (fun dv => dv > 2) :=
      List.mem_filter.mpr ⟨List.mem_append.mpr (Or.inr (List.mem_cons_self x w2)),
        by simpa using hxgt⟩
    have hle : minOver ((w1 ++ x :: w2).filter (fun dv => dv > 2)) ≤ x :=
      minOver_le hxf
    have hmem : minOver ((w1 ++ x :: w2).filter (fun dv => dv > 2)) ∈
        (w1 ++ x :: w2).filter (fun dv => dv > 2) :=
      minOver_mem (List.ne_nil_of_mem hxf)
    have hmu_mem : minOver ((w1 ++ x :: w2).filter (fun dv => dv > 2)) ∈
        w1 ++ x :: w2 := List.mem_of_mem_filter hmem
    have hmu_gt : (2 : ℚ) < minOver ((w1 ++ x :: w2).filter (fun dv => dv > 2)) := by
      have := List.of_mem_filter hmem
      simpa using this
    have hge : x ≤ minOver ((w1 ++ x :: w2).filter (fun dv => dv > 2)) := by
      rcases List.mem_append.mp hmu_mem with h1 | h1
      · -- the minimum stands before x: the invariant gives this bound
        have hpw := (List.pairwise_append.mp (hsplit ▸ hP)).2.2
        exact hpw _ h1 x (List.mem_cons_self x w2) hxgt
      · rcases List.mem_cons.mp h1 with heq | h2
        · exact le_of_eq heq.symm
        · exact absurd hmu_gt (by simpa using htail _ h2)
    exact le_antisymm hle hge
  rw [hr, hsplit, hrepl]
  unfold specReduceSmallest
  rw [hmu, replaceLastOcc_append w1 x w2 hx2]

lemma Pinv_reduceLast {w w' : List ℚ} (hP : Pinv w)
    (hr : reduceLast w = some w') : Pinv w' := by
  obtain ⟨w1, x, w2, hsplit, hxgt, hrepl, htail⟩ := reduceLast_eq_some hr
  subst hsplit hrepl
  have h := List.pairwise_append.mp hP
  obtain ⟨h1, h2, h3⟩ := h
  have h2' := List.pairwise_cons.mp h2
  refine List.pairwise_append.mpr ⟨h1, ?_, ?_⟩
  · refine List.pairwise_cons.mpr ⟨?_, h2'.2⟩
    intro b hb hgt
    exact absurd hgt (htail b hb)
  · intro a ha b hb
    rcases List.mem_cons.mp hb with rfl | hb'
    · intro hgt; exact absurd hgt (by norm_num)
    · exact h3 a ha b (List.mem_cons_of_mem x hb')

lemma cdvLoop_eq_spec (fuel : ℕ) :
    ∀ (w acc : List ℚ), Pinv w →
      (cdvLoop fuel w acc).1 = cdvSpecLoop true fuel w acc := by
  induction fuel with
  | zero => intro w acc _; rfl
  | succ n ih =>
      intro w acc hP
      rw [cdvLoop, cdvSpecLoop]
      by_cases hq : (w.filter (fun dv => dv > 2)).length ≤ 1
      · simp [hq]
      · have hne : ∃ x ∈ w, (2 : ℚ) < x := by
          rcases hfe : w.filter (fun dv => dv > 2) with _ | ⟨y, ys⟩
          · simp [hfe] at hq
          · refine ⟨y, List.mem_of_mem_filter (hfe ▸ List.mem_cons_self y ys), ?_⟩
            have := List.of_mem_filter (p := fun dv => decide (dv > 2))
              (hfe ▸ List.mem_cons_self y ys)
            simpa using this
        have hred := reduceLast_eq_spec hP hne
        simp only [hq, if_neg, hred, if_true, ite_false]
        exact ih (specReduceSmallest w) _ (Pinv_reduceLast hP hred)

end CivicScan

namespace CivicScan

lemma sorted_take_getD :
    ∀ (l : List ℚ) (n : ℕ), l.Pairwise (fun a b : ℚ => b ≤ a) →
      n < l.length → ∀ a ∈ l.take n, l.getD n 0 ≤ a := by
  intro l
  induction l with
  | nil => intro n _ hn; simp at hn
  | cons x xs ih =>
      intro n hp hn a ha
      cases n with
      | zero => simp at ha
      | succ m =>
          rw [List.take_succ_cons] at ha
          have hm : m < xs.length := by simpa using hn
          rcases List.mem_cons.mp ha with rfl | ha'
          · show xs.getD m 0 ≤ a
            have hmem : xs.getD m 0 ∈ xs := by
              rw [List.getD_eq_getElem _ _ hm]
              exact List.getElem_mem hm
            exact (List.pairwise_cons.mp hp).1 _ hmem
          · exact ih m hp.tail hm a ha'

lemma Pinv_working (sorted : List ℚ)
    (hs : sorted.Pairwise (fun a b : ℚ => b ≤ a)) (n : ℕ) (fr : ℚ)
    (hfr0 : 0 ≤ fr) (hfr1 : fr < 1) :
    Pinv (sorted.take n ++
      (if 0 < fr ∧ n < sorted.length then [sorted.getD n 0 * fr] else [])) := by
  have htake : (sorted.take n).Pairwise (fun a b : ℚ => 2 < b → b ≤ a) := by
    have h1 : (sorted.take n).Pairwise (fun a b : ℚ => b ≤ a) :=
      hs.sublist (List.take_sublist n sorted)
    refine h1.imp ?_
    intro a b hba hgt
    exact hba
  split
  · next h =>
      refine List.pairwise_append.mpr ⟨htake, List.pairwise_singleton _ _, ?_⟩
      intro a ha b hb hgt
      rw [List.mem_singleton.mp hb] at hgt ⊢
      have hga : sorted.getD n 0 ≤ a := sorted_take_getD sorted n hs h.2 a ha
      have hgpos : 0 < sorted.getD n 0 := by nlinarith [hgt, hfr0, hfr1]
      have h1 : sorted.getD n 0 * fr ≤ sorted.getD n 0 := by nlinarith [hgpos, hfr1]
      exact le_trans h1 hga
  · simpa using htake

/-- C1 as frozen is false on the code: at the input [30, 20, 1] the code
computes 40.7 (TDV sums all retained values, here 30 + 20 + 1 = 51), while
the claim's iteration (TDV summing only the values above 2.0, here 50)
gives 40. -/
theorem claim_C1_counterexample :
    applyMultipleDeductCorrection [30, 20, 1] = 407 / 10 ∧
    cdvCorrectionSpec false [30, 20, 1] = 40 ∧
    (407 / 10 : ℚ) ≠ 40 := by
  refine ⟨by decide, by decide, by decide⟩

/-- C1 amended: for deduct-value lists (values in [0, 100]) in which at
least two values exceed 2.0, applyMultipleDeductCorrection follows the
spec's iteration with TDV computed as the sum of all retained values
(including those at or below 2.0): sort descending, m = min(10, 1 +
(9/98)(100 - highest)), retain floor(m) values plus the next scaled by the
fractional part, iterate (record the curve CDV for q clamped to [1, 10],
stop at q ≤ 1, else clamp the smallest value above 2.0 to exactly 2.0, at
most 20 passes), and return the maximum recorded CDV clamped to [0, 100]. -/
theorem claim_C1 (d : List ℚ) (hd : ∀ x ∈ d, 0 ≤ x ∧ x ≤ 100)
    (hcount : 2 ≤ (d.filter (fun dv => dv > 2)).length) :
    applyMultipleDeductCorrection d = cdvCorrectionSpec true d := by
  have hne : d ≠ [] := by
    intro h; rw [h] at hcount; simp at hcount
  have hc' : ¬ (d.filter (fun dv => dv > 2)).length ≤ 1 := by omega
  haveI : IsTotal ℚ (fun a b => b ≤ a) := ⟨fun a b => le_total b a⟩
  haveI : IsTrans ℚ (fun a b => b ≤ a) := ⟨fun a b c hab hbc => le_trans hbc hab⟩
  have hsorted : (d.insertionSort (fun a b => b ≤ a)).Pairwise
      (fun a b : ℚ => b ≤ a) := List.sorted_insertionSort _ d
  have hfr0 : (0 : ℚ) ≤
      jsMin 10 (1 + 9 / 98 * (100 - (d.insertionSort (fun a b => b ≤ a)).headD 0)) -
        ⌊jsMin 10 (1 + 9 / 98 *
          (100 - (d.insertionSort (fun a b => b ≤ a)).headD 0))⌋ := by
    have := Int.floor_le (jsMin 10 (1 + 9 / 98 *
      (100 - (d.insertionSort (fun a b => b ≤ a)).headD 0)))
    linarith
  have hfr1 :
      jsMin 10 (1 + 9 / 98 * (100 - (d.insertionSort (fun a b => b ≤ a)).headD 0)) -
        ⌊jsMin 10 (1 + 9 / 98 *
          (100 - (d.insertionSort (fun a b => b ≤ a)).headD 0))⌋ < 1 := by
    have := Int.lt_floor_add_one (jsMin 10 (1 + 9 / 98 *
      (100 - (d.insertionSort (fun a b => b ≤ a)).headD 0)))
    linarith
  have hP := Pinv_working (d.insertionSort (fun a b => b ≤ a)) hsorted
    (⌊jsMin 10 (1 + 9 / 98 *
      (100 - (d.insertionSort (fun a b => b ≤ a)).headD 0))⌋ : ℤ).toNat
    _ hfr0 hfr1
  show (applyMDCFull d).1 = _
  simp only [applyMDCFull, if_neg hne, hc', ite_false, if_false]
  unfold cdvCorrectionSpec
  rw [cdvLoop_eq_spec 20 _ [] hP]

/-- Witness for C1 at the code's counterexample input (both sides 40.7). -/
theorem claim_C1_witness :
    applyMultipleDeductCorrection [30, 20, 1] = cdvCorrectionSpec true [30, 20, 1] :=
  claim_C1 [30, 20, 1] (by decide) (by decide)

end CivicScan
namespace CivicScan

/-! ### C3: interpolation lemmas -/

lemma lookupTable_cons (k0 v0 : ℚ) (rest : List (ℚ × ℚ)) (k : ℚ) :
    lookupTable ((k0, v0) :: rest) k =
      if k0 = k then some v0 else lookupTable rest k := by
  unfold lookupTable
  by_cases h : k0 = k
  · simp [List.find?_cons, h]
  · simp [List.find?_cons, h]

lemma lookupTable_eq_some_of_mem :
    ∀ (t : List (ℚ × ℚ)), (t.map Prod.fst).Nodup →
      ∀ (k v : ℚ), (k, v) ∈ t → lookupTable t k = some v := by
  intro t
  induction t with
  | nil => intro _ k v hm; simp at hm
  | cons p rest ih =>
      intro hnd k v hm
      obtain ⟨k0, v0⟩ := p
      rw [lookupTable_cons]
      rw [List.map_cons] at hnd
      rcases List.mem_cons.mp hm with heq | hm'
      · rw [(Prod.mk.injEq _ _ _ _).mp heq.symm |>.1,
          if_pos rfl, (Prod.mk.injEq _ _ _ _).mp heq.symm |>.2]
      · have hk0 : k0 ≠ k := by
          intro h
          subst h
          exact (List.nodup_cons.mp hnd).1
            (List.mem_map.mpr ⟨(k0, v), hm', rfl⟩)
        rw [if_neg hk0]
        exact ih (List.nodup_cons.mp hnd).2 k v hm'

lemma lookupTable_eq_none (t : List (ℚ × ℚ)) (k : ℚ)
    (hk : k ∉ t.map Prod.fst) : lookupTable t k = none := by
  unfold lookupTable
  rw [Option.map_eq_none', List.find?_eq_none]
  intro p hp hpk
  exact hk (List.mem_map.mpr ⟨p, hp, by simpa using hpk⟩)

lemma keys_pairwise_lt {t : List (ℚ × ℚ)}
    (h : (t.map Prod.fst).Chain' (· < ·)) :
    (t.map Prod.fst).Pairwise (· < ·) :=
  List.chain'_iff_pairwise.mp h

lemma keys_nodup {t : List (ℚ × ℚ)}
    (h : (t.map Prod.fst).Chain' (· < ·)) : (t.map Prod.fst).Nodup :=
  (keys_pairwise_lt h).imp ne_of_lt

lemma keys_sort_eq {t : List (ℚ × ℚ)}
    (h : (t.map Prod.fst).Chain' (· < ·)) :
    (t.map Prod.fst).insertionSort (· ≤ ·) = t.map Prod.fst :=
  List.Sorted.insertionSort_eq ((keys_pairwise_lt h).imp le_of_lt)

lemma firstBracket_of_le (k1 k2 : ℚ) (rest : List ℚ) (c : ℚ)
    (h : k1 ≤ c ∧ c ≤ k2) :
    firstBracket (k1 :: k2 :: rest) c = some (k1, k2) := by
  unfold firstBracket; rw [if_pos h]

lemma firstBracket_of_not (k1 k2 : ℚ) (rest : List ℚ) (c : ℚ)
    (h : ¬(k1 ≤ c ∧ c ≤ k2)) :
    firstBracket (k1 :: k2 :: rest) c = firstBracket (k2 :: rest) c := by
  show (if k1 ≤ c ∧ c ≤ k2 then some (k1, k2) else firstBracket (k2 :: rest) c) =
    firstBracket (k2 :: rest) c
  rw [if_neg h]

lemma firstBracket_isSome :
    ∀ (rest : List ℚ) (k1 k2 c : ℚ), k1 ≤ c → c ≤ (k2 :: rest).getLastD 0 →
      ∃ p, firstBracket (k1 :: k2 :: rest) c = some p := by
  intro rest
  induction rest with
  | nil =>
      intro k1 k2 c h1 h2
      simp only [List.getLastD_cons, List.getLastD] at h2
      exact ⟨(k1, k2), firstBracket_of_le k1 k2 [] c ⟨h1, h2⟩⟩
  | cons k3 rest' ih =>
      intro k1 k2 c h1 h2
      by_cases hb : k1 ≤ c ∧ c ≤ k2
      · exact ⟨(k1, k2), firstBracket_of_le _ _ _ _ hb⟩
      · have hk2 : k2 ≤ c := by
          rcases not_and_or.mp hb with h | h
          · exact absurd h1 h
          · exact le_of_lt (lt_of_not_le h)
        rw [firstBracket_of_not _ _ _ _ hb]
        exact ih k2 k3 c hk2 (by simpa [List.getLastD_cons] using h2)

lemma firstBracket_mem :
    ∀ (ks : List ℚ) (c : ℚ) (a b : ℚ),
      firstBracket ks c = some (a, b) → a ∈ ks ∧ b ∈ ks := by
  intro ks
  induction ks with
  | nil => intro c a b h; simp [firstBracket] at h
  | cons k1 rest ih =>
      intro c a b h
      cases rest with
      | nil => simp [firstBracket] at h
      | cons k2 rest' =>
          by_cases hb : k1 ≤ c ∧ c ≤ k2
          · rw [firstBracket_of_le _ _ _ _ hb] at h
            have h' := Option.some.inj h
            injection h' with h1 h2
            subst h1; subst h2
            exact ⟨List.mem_cons_self _ _,
              List.mem_cons_of_mem _ (List.mem_cons_self _ _)⟩
          · rw [firstBracket_of_not _ _ _ _ hb] at h
            obtain ⟨ha, hbk⟩ := ih c a b h
            exact ⟨List.mem_cons_of_mem _ ha, List.mem_cons_of_mem _ hbk⟩

end CivicScan

namespace CivicScan

lemma headD_le_mem (l : List ℚ) (h : l.Pairwise (· ≤ ·)) (d : ℚ) :
    ∀ x ∈ l, l.headD d ≤ x := by
  cases l with
  | nil => intro x hx; simp at hx
  | cons a l' =>
      intro x hx
      rw [List.headD_cons]
      rcases List.mem_cons.mp hx with rfl | hx'
      · exact le_refl x
      · exact (List.pairwise_cons.mp h).1 x hx'

lemma le_getLastD :
    ∀ (l : List ℚ), l.Pairwise (· ≤ ·) → ∀ (d : ℚ), ∀ x ∈ l, x ≤ l.getLastD d := by
  intro l
  induction l with
  | nil => intro _ d x hx; simp at hx
  | cons a l' ih =>
      intro h d x hx
      rw [List.getLastD_cons]
      rcases List.mem_cons.mp hx with rfl | hx'
      · cases l' with
        | nil => simp [List.getLastD]
        | cons b l'' =>
            have hab : x ≤ b := (List.pairwise_cons.mp h).1 b (List.mem_cons_self _ _)
            have hb : b ≤ (b :: l'').getLastD x :=
              ih (List.pairwise_cons.mp h).2 x b (List.mem_cons_self _ _)
            exact le_trans hab hb
      · exact ih (List.pairwise_cons.mp h).2 a x hx'

/-- On the first cell [k0, k1] the interpolation is the linear formula
between (k0, v0) and (k1, v1). -/
lemma interpolateCore_cell (k0 v0 k1 v1 : ℚ) (rest : List (ℚ × ℚ))
    (hkeys : (((k0, v0) :: (k1, v1) :: rest).map Prod.fst).Chain' (· < ·))
    (c : ℚ) (hc0 : k0 ≤ c) (hc1 : c ≤ k1) :
    interpolateCore ((k0, v0) :: (k1, v1) :: rest) c =
      v0 + (c - k0) / (k1 - k0) * (v1 - v0) := by
  have hpw := keys_pairwise_lt hkeys
  have hk01 : k0 < k1 := by
    rw [List.map_cons, List.map_cons] at hpw
    exact (List.pairwise_cons.mp hpw).1 k1
      (List.mem_cons_self _ _)
  have hk01' : k1 - k0 ≠ 0 := sub_ne_zero.mpr (ne_of_gt hk01)
  unfold interpolateCore
  rw [keys_sort_eq hkeys]
  by_cases hck0 : c = k0
  · subst hck0
    rw [lookupTable_cons, if_pos rfl]
    rw [sub_self, zero_div, zero_mul, add_zero]
  · by_cases hck1 : c = k1
    · subst hck1
      rw [lookupTable_cons, if_neg (fun h => hck0 h.symm), lookupTable_cons, if_pos rfl]
      rw [div_self hk01', one_mul]
      ring
    · have hnotkey : c ∉ ((k0, v0) :: (k1, v1) :: rest).map Prod.fst := by
        rw [List.map_cons, List.map_cons]
        intro hmem
        rcases List.mem_cons.mp hmem with h | hmem'
        · exact hck0 h
        rcases List.mem_cons.mp hmem' with h | hmem''
        · exact hck1 h
        · have hlt : k1 < c := by
            rw [List.map_cons, List.map_cons] at hpw
            exact (List.pairwise_cons.mp (List.pairwise_cons.mp hpw).2).1 c hmem''
          exact absurd hc1 (not_le.mpr hlt)
      rw [lookupTable_eq_none _ _ hnotkey]
      simp only [List.map_cons]
      rw [firstBracket_of_le _ _ _ _ ⟨hc0, hc1⟩]
      rw [Option.getD_some]
      rw [lookupTable_cons, if_pos rfl, lookupTable_cons,
        if_neg (ne_of_lt hk01), lookupTable_cons, if_pos rfl]
      rw [if_neg (ne_of_lt hk01)]
      rfl

/-- Dropping the first table row does not change the interpolation at points
at or beyond the second key. -/
lemma interpolateCore_peel (k0 v0 k1 v1 : ℚ) (rest : List (ℚ × ℚ))
    (hkeys : (((k0, v0) :: (k1, v1) :: rest).map Prod.fst).Chain' (· < ·))
    (c : ℚ) (hc : k1 ≤ c)
    (hlast : c ≤ (((k1, v1) :: rest).map Prod.fst).getLastD 0) :
    interpolateCore ((k0, v0) :: (k1, v1) :: rest) c =
      interpolateCore ((k1, v1) :: rest) c := by
  have hpw := keys_pairwise_lt hkeys
  rw [List.map_cons, List.map_cons] at hpw
  have hk01 : k0 < k1 := (List.pairwise_cons.mp hpw).1 k1 (List.mem_cons_self _ _)
  have hk0c : k0 < c := lt_of_lt_of_le hk01 hc
  have htail : (((k1, v1) :: rest).map Prod.fst).Chain' (· < ·) := by
    rw [List.map_cons] at hkeys ⊢
    exact hkeys.tail
  unfold interpolateCore
  rw [keys_sort_eq hkeys, keys_sort_eq htail]
  rw [lookupTable_cons, if_neg (ne_of_lt hk0c)]
  cases hl : lookupTable ((k1, v1) :: rest) c with
  | some v => rfl
  | none =>
      have hck1 : c ≠ k1 := by
        intro h
        subst h
        rw [lookupTable_cons, if_pos rfl] at hl
        exact Option.some_ne_none v1 hl
      have hk1c : k1 < c := lt_of_le_of_ne hc (fun h => hck1 h.symm)
      simp only [List.map_cons]
      rw [firstBracket_of_not _ _ _ _ (fun h => absurd h.2 (not_le.mpr hk1c))]
      rw [List.map_cons] at hlast
      obtain ⟨p, hp⟩ : ∃ p, firstBracket (k1 :: rest.map Prod.fst) c = some p := by
        cases hrk : rest.map Prod.fst with
        | nil =>
            rw [hrk] at hlast
            simp only [List.getLastD_cons, List.getLastD] at hlast
            exact absurd hlast (not_le.mpr hk1c)
        | cons k2 ks =>
            rw [hrk] at hlast
            exact firstBracket_isSome ks k1 k2 c (le_of_lt hk1c)
              (by simpa [List.getLastD_cons] using hlast)
      rw [hp, Option.getD_some]
      obtain ⟨hp1, hp2⟩ := firstBracket_mem _ c p.1 p.2 (by rw [hp])
      have hk0p1 : k0 ≠ p.1 := by
        intro he
        rcases List.mem_cons.mp hp1 with h | h
        · rw [he, h] at hk01; exact lt_irrefl _ hk01
        · have hlt : k1 < p.1 :=
            (List.pairwise_cons.mp (List.pairwise_cons.mp hpw).2).1 p.1 (by simpa using h)
          rw [he] at hk01
          exact lt_irrefl _ (lt_trans hk01 hlt)
      have hk0p2 : k0 ≠ p.2 := by
        intro he
        rcases List.mem_cons.mp hp2 with h | h
        · rw [he, h] at hk01; exact lt_irrefl _ hk01
        · have hlt : k1 < p.2 :=
            (List.pairwise_cons.mp (List.pairwise_cons.mp hpw).2).1 p.2 (by simpa using h)
          rw [he] at hk01
          exact lt_irrefl _ (lt_trans hk01 hlt)
      rw [lookupTable_cons k0 v0 _ p.1, if_neg hk0p1,
        lookupTable_cons k0 v0 _ p.2, if_neg hk0p2]
      rfl

end CivicScan

namespace CivicScan

/-- Exact table keys evaluate to the exact table value. -/
lemma interpolateCore_breakpoint (t : List (ℚ × ℚ))
    (hkeys : (t.map Prod.fst).Chain' (· < ·)) (k v : ℚ) (hm : (k, v) ∈ t) :
    interpolateCore t k = v := by
  unfold interpolateCore
  rw [lookupTable_eq_some_of_mem t (keys_nodup hkeys) k v hm]

/-- interpolateCore is monotone between the first and last key. -/
lemma interpolateCore_mono :
    ∀ (t : List (ℚ × ℚ)), t ≠ [] →
      (t.map Prod.fst).Chain' (· < ·) → (t.map Prod.snd).Chain' (· ≤ ·) →
      ∀ c1 c2 : ℚ, (t.map Prod.fst).headD 0 ≤ c1 → c1 ≤ c2 →
        c2 ≤ (t.map Prod.fst).getLastD 0 →
        interpolateCore t c1 ≤ interpolateCore t c2 := by
  intro t
  induction t with
  | nil => intro h; exact absurd rfl h
  | cons p tl ih =>
      intro _ hkeys hvals c1 c2 h1 h12 h2
      obtain ⟨k0, v0⟩ := p
      cases tl with
      | nil =>
          simp only [List.map_cons, List.map_nil, List.headD_cons,
            List.getLastD_cons, List.getLastD] at h1 h2
          have : c1 = c2 := le_antisymm h12 (le_trans h2 h1)
          rw [this]
      | cons q rl =>
          obtain ⟨k1, v1⟩ := q
          have hk01 : k0 < k1 := by
            have hpw := keys_pairwise_lt hkeys
            rw [List.map_cons, List.map_cons] at hpw
            exact (List.pairwise_cons.mp hpw).1 k1 (List.mem_cons_self _ _)
          have hv01 : v0 ≤ v1 := by
            have hpwv : ((((k0, v0) :: (k1, v1) :: rl)).map Prod.snd).Pairwise (· ≤ ·) :=
              List.chain'_iff_pairwise.mp hvals
            rw [List.map_cons, List.map_cons] at hpwv
            exact (List.pairwise_cons.mp hpwv).1 v1 (List.mem_cons_self _ _)
          have htailkeys : ((((k1, v1) :: rl)).map Prod.fst).Chain' (· < ·) := by
            rw [List.map_cons] at hkeys; exact hkeys.tail
          have htailvals : ((((k1, v1) :: rl)).map Prod.snd).Chain' (· ≤ ·) := by
            rw [List.map_cons] at hvals; exact hvals.tail
          have hh1 : k0 ≤ c1 := by
            simpa only [List.map_cons, List.headD_cons] using h1
          have hlast : c2 ≤ ((((k1, v1) :: rl)).map Prod.fst).getLastD 0 := by
            simpa only [List.map_cons, List.getLastD_cons] using h2
          have hlin : ∀ c c' : ℚ, k0 ≤ c → c ≤ c' → c' ≤ k1 →
              v0 + (c - k0) / (k1 - k0) * (v1 - v0) ≤
                v0 + (c' - k0) / (k1 - k0) * (v1 - v0) := by
            intro c c' _ hcc' _
            have hfrac : (c - k0) / (k1 - k0) ≤ (c' - k0) / (k1 - k0) :=
              (div_le_div_right (sub_pos.mpr hk01)).mpr (by linarith)
            have := mul_le_mul_of_nonneg_right hfrac (sub_nonneg.mpr hv01)
            linarith
          by_cases hc2 : c2 ≤ k1
          · rw [interpolateCore_cell k0 v0 k1 v1 rl hkeys c1 hh1 (le_trans h12 hc2),
              interpolateCore_cell k0 v0 k1 v1 rl hkeys c2 (le_trans hh1 h12) hc2]
            exact hlin c1 c2 hh1 h12 hc2
          · push_neg at hc2
            by_cases hc1 : k1 ≤ c1
            · rw [interpolateCore_peel k0 v0 k1 v1 rl hkeys c1 hc1
                  (le_trans h12 hlast),
                interpolateCore_peel k0 v0 k1 v1 rl hkeys c2 (le_of_lt hc2) hlast]
              exact ih (List.cons_ne_nil _ _) htailkeys htailvals c1 c2
                (by simpa only [List.map_cons, List.headD_cons] using hc1) h12 hlast
            · push_neg at hc1
              have step1 : interpolateCore ((k0, v0) :: (k1, v1) :: rl) c1 ≤ v1 := by
                rw [interpolateCore_cell k0 v0 k1 v1 rl hkeys c1 hh1 (le_of_lt hc1)]
                have hfrac1 : (c1 - k0) / (k1 - k0) ≤ 1 :=
                  (div_le_one (sub_pos.mpr hk01)).mpr (by linarith)
                have := mul_le_mul_of_nonneg_right hfrac1 (sub_nonneg.mpr hv01)
                linarith
              have step2 : v1 ≤ interpolateCore ((k0, v0) :: (k1, v1) :: rl) c2 := by
                rw [interpolateCore_peel k0 v0 k1 v1 rl hkeys c2 (le_of_lt hc2) hlast]
                have hbp : interpolateCore ((k1, v1) :: rl) k1 = v1 :=
                  interpolateCore_breakpoint _ htailkeys k1 v1 (List.mem_cons_self _ _)
                have hmono := ih (List.cons_ne_nil _ _) htailkeys htailvals k1 c2
                  (by simp only [List.map_cons, List.headD_cons]; exact le_rfl)
                  (le_of_lt hc2) hlast
                exact le_trans (le_of_eq hbp.symm) hmono
              exact le_trans step1 step2

/-- Adjacent table rows give the linear-interpolation formula on their cell. -/
lemma interpolateCore_infix :
    ∀ (s : List (ℚ × ℚ)) (t : List (ℚ × ℚ)) (k1 v1 k2 v2 : ℚ) (u : List (ℚ × ℚ)),
      t = s ++ (k1, v1) :: (k2, v2) :: u →
      (t.map Prod.fst).Chain' (· < ·) →
      ∀ c : ℚ, k1 ≤ c → c ≤ k2 →
        interpolateCore t c = v1 + (c - k1) / (k2 - k1) * (v2 - v1) := by
  intro s
  induction s with
  | nil =>
      intro t k1 v1 k2 v2 u ht hkeys c hc1 hc2
      subst ht
      exact interpolateCore_cell k1 v1 k2 v2 u hkeys c hc1 hc2
  | cons p s' ih =>
      intro t k1 v1 k2 v2 u ht hkeys c hc1 hc2
      obtain ⟨ka, va⟩ := p
      subst ht
      have hrest : s' ++ (k1, v1) :: (k2, v2) :: u ≠ [] := by
        cases s' <;> simp
      obtain ⟨q, t'', hq⟩ : ∃ q t'', s' ++ (k1, v1) :: (k2, v2) :: u = q :: t'' := by
        cases hh : s' ++ (k1, v1) :: (k2, v2) :: u with
        | nil => exact absurd hh hrest
        | cons q t'' => exact ⟨q, t'', rfl⟩
      obtain ⟨kb, vb⟩ := q
      have hpwle : ((((ka, va) :: s' ++ (k1, v1) :: (k2, v2) :: u)).map
          Prod.fst).Pairwise (· ≤ ·) :=
        (keys_pairwise_lt hkeys).imp le_of_lt
      have hk1mem : k1 ∈ (s' ++ (k1, v1) :: (k2, v2) :: u).map Prod.fst := by
        rw [List.map_append]
        exact List.mem_append_right _ (by simp)
      have hk2mem : k2 ∈ ((ka, va) :: s' ++ (k1, v1) :: (k2, v2) :: u).map Prod.fst := by
        rw [List.cons_append, List.map_cons]
        refine List.mem_cons_of_mem _ ?_
        rw [List.map_append]
        exact List.mem_append_right _ (by simp)
      have hheadle : ((s' ++ (k1, v1) :: (k2, v2) :: u).map Prod.fst).headD 0 ≤ c := by
        refine le_trans ?_ hc1
        rw [hq, List.map_cons, List.headD_cons]
        have : ((ka, va) :: (kb, vb) :: t'').map Prod.fst =
            ((ka, va) :: s' ++ (k1, v1) :: (k2, v2) :: u).map Prod.fst := by
          rw [List.cons_append, hq]
        exact headD_le_mem _ (by
          have := hpwle
          rw [List.cons_append, hq, List.map_cons, List.map_cons] at this
          exact (List.pairwise_cons.mp this).2) 0 k1 (by rw [hq] at hk1mem; exact hk1mem)
      have hlastge : c ≤ ((s' ++ (k1, v1) :: (k2, v2) :: u).map Prod.fst).getLastD 0 := by
        refine le_trans hc2 ?_
        have h2mem : k2 ∈ (s' ++ (k1, v1) :: (k2, v2) :: u).map Prod.fst := by
          rw [List.map_append]
          exact List.mem_append_right _ (by simp)
        have hpwtail : ((s' ++ (k1, v1) :: (k2, v2) :: u).map Prod.fst).Pairwise (· ≤ ·) := by
          have := hpwle
          rw [List.cons_append, List.map_cons] at this
          exact (List.pairwise_cons.mp this).2
        exact le_getLastD _ hpwtail 0 k2 h2mem
      have hkeys' : (((ka, va) :: (kb, vb) :: t'').map Prod.fst).Chain' (· < ·) := by
        rw [← hq]
        rw [List.cons_append] at hkeys
        exact hkeys
      have hpeel := interpolateCore_peel ka va kb vb t'' hkeys' c
        (by
          rw [hq, List.map_cons, List.headD_cons] at hheadle
          exact hheadle)
        (by rw [hq] at hlastge; simpa only [List.map_cons] using hlastge)
      rw [List.cons_append, hq, hpeel, ← hq]
      refine ih (s' ++ (k1, v1) :: (k2, v2) :: u) k1 v1 k2 v2 u rfl ?_ c hc1 hc2
      rw [List.cons_append, List.map_cons] at hkeys
      exact hkeys.tail

end CivicScan

namespace CivicScan

/-- The shape facts shared by all twelve deduct tables: nonempty, strictly
increasing keys, non-decreasing values, first row (0, 0), last key 100,
last value in [0, 100]. -/
def goodTable (t : List (ℚ × ℚ)) : Prop :=
  t ≠ [] ∧
  (t.map Prod.fst).Pairwise (· < ·) ∧
  (t.map Prod.snd).Pairwise (· ≤ ·) ∧
  t.headD (0, 0) = (0, 0) ∧
  (t.getLastD (0, 0)).1 = 100 ∧
  0 ≤ (t.getLastD (0, 0)).2 ∧ (t.getLastD (0, 0)).2 ≤ 100

lemma goodTables : ∀ (dt : DefectType) (sv : SeverityLevel),
    goodTable (DEDUCT_TABLES dt sv) := by
  intro dt sv
  unfold goodTable
  cases dt <;> cases sv <;> decide

lemma getLastD_fst (t : List (ℚ × ℚ)) (ht : t ≠ []) :
    (t.map Prod.fst).getLastD 0 = (t.getLastD (0, 0)).1 := by
  rw [List.getLastD_eq_getLast?, List.getLastD_eq_getLast?, List.getLast?_map,
    List.getLast?_eq_getLast t ht]
  rfl

lemma getLastD_mem (t : List (ℚ × ℚ)) (ht : t ≠ []) : t.getLastD (0, 0) ∈ t := by
  rw [List.getLastD_eq_getLast?, List.getLast?_eq_getLast t ht]
  exact List.getLast_mem ht

lemma clamp_bounds (d : ℚ) :
    0 ≤ jsMax 0 (jsMin 100 d) ∧ jsMax 0 (jsMin 100 d) ≤ 100 := by
  unfold jsMax jsMin
  split_ifs <;> constructor <;> linarith

lemma clamp_mono (d1 d2 : ℚ) (h : d1 ≤ d2) :
    jsMax 0 (jsMin 100 d1) ≤ jsMax 0 (jsMin 100 d2) := by
  unfold jsMax jsMin
  split_ifs <;> linarith

lemma clamp_eq_self (d : ℚ) (h0 : 0 ≤ d) (h1 : d ≤ 100) :
    jsMax 0 (jsMin 100 d) = d := by
  unfold jsMax jsMin
  split_ifs <;> linarith

lemma table_shape (dt : DefectType) (sv : SeverityLevel) :
    ∃ rest, DEDUCT_TABLES dt sv = (0, 0) :: rest := by
  obtain ⟨hne, _, _, hhead, _⟩ := goodTables dt sv
  cases ht : DEDUCT_TABLES dt sv with
  | nil => exact absurd ht hne
  | cons a r =>
      rw [ht, List.headD_cons] at hhead
      exact ⟨r, by rw [hhead]⟩

lemma table_headkey (dt : DefectType) (sv : SeverityLevel) :
    ((DEDUCT_TABLES dt sv).map Prod.fst).headD 0 = 0 := by
  obtain ⟨rest, hshape⟩ := table_shape dt sv
  rw [hshape]
  simp

lemma table_lastkey (dt : DefectType) (sv : SeverityLevel) :
    ((DEDUCT_TABLES dt sv).map Prod.fst).getLastD 0 = 100 := by
  obtain ⟨hne, _, _, _, hlast, _⟩ := goodTables dt sv
  rw [getLastD_fst _ hne, hlast]

lemma table_key_range (dt : DefectType) (sv : SeverityLevel) :
    ∀ k ∈ (DEDUCT_TABLES dt sv).map Prod.fst, 0 ≤ k ∧ k ≤ 100 := by
  obtain ⟨hne, hkeys, _⟩ := goodTables dt sv
  intro k hk
  have hpwle : ((DEDUCT_TABLES dt sv).map Prod.fst).Pairwise (· ≤ ·) :=
    hkeys.imp le_of_lt
  constructor
  · have := headD_le_mem _ hpwle 0 k hk
    rwa [table_headkey dt sv] at this
  · have := le_getLastD _ hpwle 0 k hk
    rwa [table_lastkey dt sv] at this

lemma getDeductValue_zero (dt : DefectType) (sv : SeverityLevel) :
    interpolateCore (DEDUCT_TABLES dt sv) 0 = 0 := by
  obtain ⟨hne, hkeys, _⟩ := goodTables dt sv
  obtain ⟨rest, hshape⟩ := table_shape dt sv
  exact interpolateCore_breakpoint _ (List.chain'_iff_pairwise.mpr hkeys) 0 0
    (by rw [hshape]; exact List.mem_cons_self _ _)

lemma getDeductValue_hundred (dt : DefectType) (sv : SeverityLevel) :
    interpolateCore (DEDUCT_TABLES dt sv) 100 =
      ((DEDUCT_TABLES dt sv).getLastD (0, 0)).2 := by
  obtain ⟨hne, hkeys, _, _, hlast, _⟩ := goodTables dt sv
  have hmem := getLastD_mem _ hne
  have := interpolateCore_breakpoint _ (List.chain'_iff_pairwise.mpr hkeys)
    ((DEDUCT_TABLES dt sv).getLastD (0, 0)).1
    ((DEDUCT_TABLES dt sv).getLastD (0, 0)).2 (by simpa using hmem)
  rwa [hlast] at this

/-- C3: for every defect type and severity, getDeductValue is monotone
non-decreasing in the density, always returns a value in [0, 100], returns
the exact table value at every breakpoint (in particular alligator/High at
density 100 gives 98), clamps the density to [0, 100] before lookup, and
between two adjacent breakpoints returns the linear interpolation between
them. -/
theorem claim_C3 (dt : DefectType) (sv : SeverityLevel) :
    (∀ d1 d2 : ℚ, d1 ≤ d2 → getDeductValue dt sv d1 ≤ getDeductValue dt sv d2) ∧
    (∀ d : ℚ, 0 ≤ getDeductValue dt sv d ∧ getDeductValue dt sv d ≤ 100) ∧
    (∀ k v : ℚ, (k, v) ∈ DEDUCT_TABLES dt sv → getDeductValue dt sv k = v) ∧
    getDeductValue DefectType.alligator SeverityLevel.High 100 = 98 ∧
    (∀ d : ℚ, getDeductValue dt sv d = getDeductValue dt sv (jsMax 0 (jsMin 100 d))) ∧
    (∀ k1 v1 k2 v2 c : ℚ,
      List.IsInfix [(k1, v1), (k2, v2)] (DEDUCT_TABLES dt sv) → k1 ≤ c → c ≤ k2 →
      getDeductValue dt sv c = v1 + (c - k1) / (k2 - k1) * (v2 - v1)) := by
  obtain ⟨hne, hkeysPW, hvalsPW, hhead, hlastk, hlastv0, hlastv1⟩ := goodTables dt sv
  have hkeys : ((DEDUCT_TABLES dt sv).map Prod.fst).Chain' (· < ·) :=
    List.chain'_iff_pairwise.mpr hkeysPW
  have hvals : ((DEDUCT_TABLES dt sv).map Prod.snd).Chain' (· ≤ ·) :=
    List.chain'_iff_pairwise.mpr hvalsPW
  have hmono : ∀ c1 c2 : ℚ, 0 ≤ c1 → c1 ≤ c2 → c2 ≤ 100 →
      interpolateCore (DEDUCT_TABLES dt sv) c1 ≤
        interpolateCore (DEDUCT_TABLES dt sv) c2 := by
    intro c1 c2 h0 h12 h100
    exact interpolateCore_mono _ hne hkeys hvals c1 c2
      (by rw [table_headkey dt sv]; exact h0) h12
      (by rw [table_lastkey dt sv]; exact h100)
  refine ⟨?_, ?_, ?_, by decide, ?_, ?_⟩
  · intro d1 d2 h
    unfold getDeductValue interpolateDeductValue
    exact hmono _ _ (clamp_bounds d1).1 (clamp_mono d1 d2 h) (clamp_bounds d2).2
  · intro d
    unfold getDeductValue interpolateDeductValue
    constructor
    · have := hmono 0 (jsMax 0 (jsMin 100 d)) le_rfl (clamp_bounds d).1 (clamp_bounds d).2
      rwa [getDeductValue_zero dt sv] at this
    · have := hmono (jsMax 0 (jsMin 100 d)) 100 (clamp_bounds d).1 (clamp_bounds d).2 le_rfl
      rw [getDeductValue_hundred dt sv] at this
      exact le_trans this hlastv1
  · intro k v hm
    unfold getDeductValue interpolateDeductValue
    have hk := table_key_range dt sv k (List.mem_map.mpr ⟨(k, v), hm, rfl⟩)
    rw [clamp_eq_self k hk.1 hk.2]
    exact interpolateCore_breakpoint _ hkeys k v hm
  · intro d
    unfold getDeductValue interpolateDeductValue
    rw [clamp_eq_self (jsMax 0 (jsMin 100 d)) (clamp_bounds d).1 (clamp_bounds d).2]
  · intro k1 v1 k2 v2 c hinf hc1 hc2
    obtain ⟨s, u, hsu⟩ := hinf
    have ht : DEDUCT_TABLES dt sv = s ++ (k1, v1) :: (k2, v2) :: u := by
      rw [← hsu, List.append_assoc]
      rfl
    have hk1 : 0 ≤ k1 ∧ k1 ≤ 100 := by
      refine table_key_range dt sv k1 (List.mem_map.mpr ⟨(k1, v1), ?_, rfl⟩)
      rw [ht]
      exact List.mem_append_right _ (List.mem_cons_self _ _)
    have hk2 : 0 ≤ k2 ∧ k2 ≤ 100 := by
      refine table_key_range dt sv k2 (List.mem_map.mpr ⟨(k2, v2), ?_, rfl⟩)
      rw [ht]
      exact List.mem_append_right _ (List.mem_cons_of_mem _ (List.mem_cons_self _ _))
    unfold getDeductValue interpolateDeductValue
    rw [clamp_eq_self c (le_trans hk1.1 hc1) (le_trans hc2 hk2.2)]
    exact interpolateCore_infix s _ k1 v1 k2 v2 u ht hkeys c hc1 hc2

/-- Witness for C3: monotonicity at 3 ≤ 7, exactness at the (5, 8)
transverse/Low breakpoint, the alligator/High density-100 value, the clamp
identity at density 150, nonnegativity at density 33, and the linear
formula between the (3, 6) and (5, 8) breakpoints at density 4, all for
concrete tables. -/
theorem claim_C3_witness :
    getDeductValue DefectType.transverse SeverityLevel.Low 3 ≤
      getDeductValue DefectType.transverse SeverityLevel.Low 7 ∧
    getDeductValue DefectType.transverse SeverityLevel.Low 5 = 8 ∧
    getDeductValue DefectType.alligator SeverityLevel.High 100 = 98 ∧
    getDeductValue DefectType.pothole SeverityLevel.High 150 =
      getDeductValue DefectType.pothole SeverityLevel.High (jsMax 0 (jsMin 100 150)) ∧
    0 ≤ getDeductValue DefectType.pothole SeverityLevel.Medium 33 ∧
    getDeductValue DefectType.transverse SeverityLevel.Low 4 =
      6 + (4 - 3) / (5 - 3) * (8 - 6) :=
  ⟨(claim_C3 DefectType.transverse SeverityLevel.Low).1 3 7 (by decide),
   (claim_C3 DefectType.transverse SeverityLevel.Low).2.2.1 5 8 (by decide),
   (claim_C3 DefectType.alligator SeverityLevel.High).2.2.2.1,
   (claim_C3 DefectType.pothole SeverityLevel.High).2.2.2.2.1 150,
   ((claim_C3 DefectType.pothole SeverityLevel.Medium).2.1 33).1,
   (claim_C3 DefectType.transverse SeverityLevel.Low).2.2.2.2.2 3 6 5 8 4
     ⟨[(0, 0), (1, 2), (2, 4)], [(10, 12), (15, 15), (20, 18), (30, 22), (50, 28),
       (60, 31), (70, 34), (80, 36), (90, 38), (100, 40)], by decide⟩
     (by decide) (by decide)⟩

end CivicScan
namespace CivicScan

/-! ### C6: characterization of the frame merge -/

/-- Running minimum on optional timestamps (the amended reading of the
globalTimestamp merge when no stored timestamp is 0). -/
def optMin : Option ℚ → Option ℚ → Option ℚ
  | g, none => g
  | none, some ts => some ts
  | some g, some ts => some (jsMin g ts)

/-- Fold of the running minimum over the kept detections' timestamps. -/
def gTfold (l : List (Option ℚ)) (seed : Option ℚ) : Option ℚ :=
  l.foldl optMin seed

/-- The claim's order-preserving union-dedup of all contributing
detections of frame k. -/
def keptDetections (k : ℤ) (fs : List AggFeature) : List Det :=
  dedupeByKey (fun d => buildDetectionDedupKey d (some k))
    ((fs.map AggFeature.dets).flatten) []

/-- The merged frame feature as the (amended) spec describes it: detections
are the union-dedup of all contributing detections; globalTimestamp is the
running minimum of the first feature's stored globalTimestamp and the kept
detections' timestamps; the geometry is the mean of the kept detections'
coordinates when any exist, else the first feature's geometry; each image
slot keeps the first value present among the first feature's slot and the
kept detections' corresponding URLs. -/
def mergedFrameSpec (k : ℤ) (f0 : AggFeature) (fs : List AggFeature) :
    AggFeature :=
  let kept := keptDetections k (f0 :: fs)
  let coords := kept.filterMap Det.coordinates
  { frame_id := some k
    frame_number := f0.frame_number <|> some k
    globalTimestamp := gTfold (kept.map Det.gps_timestamp) f0.globalTimestamp
    compressed_annotated_image_url :=
      firstSome (f0.compressed_annotated_image_url :: kept.map Det.thumbnail_url)
    annotated_image_url :=
      firstSome (f0.annotated_image_url ::
        kept.map (fun d => d.annotated_image_url <|> d.polygon_overlay_url))
    original_image_url :=
      firstSome (f0.original_image_url :: kept.map Det.original_frame_url)
    geometry :=
      if 0 < coords.length
      then some (((coords.map Prod.fst).sum / (coords.length : ℚ)),
        ((coords.map Prod.snd).sum / (coords.length : ℚ)))
      else f0.geometry
    dets := kept }

lemma jsMin_pos {a b : ℚ} (ha : 0 < a) (hb : 0 < b) : 0 < jsMin a b := by
  unfold jsMin; split <;> assumption

end CivicScan

namespace CivicScan

/-- The detections kept by the registry of an in-progress frame feature. -/
def keptOf (acc : FrameAcc) (D : List Det) : List Det :=
  dedupeByKey (fun d => buildDetectionDedupKey d (acc.frame_id <|> acc.frame_number))
    D acc.registry

lemma fillSlot_eq (a b : Option String) :
    (if a = none ∧ b ≠ none then b else a) = (a <|> b) := by
  cases a <;> cases b <;> simp

lemma fillSlot2_eq (a b c : Option String) :
    (if a = none ∧ (b ≠ none ∨ c ≠ none) then b <|> c else a) = (a <|> (b <|> c)) := by
  cases a <;> cases b <;> cases c <;> simp

lemma optMin_pos (a b : Option ℚ) (ha : ∀ g, a = some g → 0 < g)
    (hb : ∀ t, b = some t → 0 < t) : ∀ g, optMin a b = some g → 0 < g := by
  intro g hg
  cases a with
  | none =>
      cases b with
      | none => simp [optMin] at hg
      | some t =>
          simp only [optMin] at hg
          injection hg with hg
          exact hg ▸ hb t rfl
  | some a0 =>
      cases b with
      | none =>
          simp only [optMin] at hg
          injection hg with hg
          exact hg ▸ ha a0 rfl
      | some t =>
          simp only [optMin] at hg
          injection hg with hg
          exact hg ▸ jsMin_pos (ha a0 rfl) (hb t rfl)

lemma addSummary_fold :
    ∀ (D : List Det) (acc : FrameAcc),
      (∀ d ∈ D, 0 < d.gps_timestamp.getD 1) →
      (∀ g, acc.globalTimestamp = some g → 0 < g) →
      (D.foldl addSummary acc).frame_id = acc.frame_id ∧
      (D.foldl addSummary acc).frame_number = acc.frame_number ∧
      (D.foldl addSummary acc).geometry = acc.geometry ∧
      (D.foldl addSummary acc).dets = acc.dets ++ keptOf acc D ∧
      (D.foldl addSummary acc).globalTimestamp =
        gTfold ((keptOf acc D).map Det.gps_timestamp) acc.globalTimestamp ∧
      (D.foldl addSummary acc).compressed_annotated_image_url =
        firstSome (acc.compressed_annotated_image_url ::
          (keptOf acc D).map Det.thumbnail_url) ∧
      (D.foldl addSummary acc).annotated_image_url =
        firstSome (acc.annotated_image_url ::
          (keptOf acc D).map
            (fun d => d.annotated_image_url <|> d.polygon_overlay_url)) ∧
      (D.foldl addSummary acc).original_image_url =
        firstSome (acc.original_image_url ::
          (keptOf acc D).map Det.original_frame_url) ∧
      (D.foldl addSummary acc).lngSum =
        acc.lngSum + (((keptOf acc D).filterMap Det.coordinates).map Prod.fst).sum ∧
      (D.foldl addSummary acc).latSum =
        acc.latSum + (((keptOf acc D).filterMap Det.coordinates).map Prod.snd).sum ∧
      (D.foldl addSummary acc).coordCount =
        acc.coordCount + ((keptOf acc D).filterMap Det.coordinates).length := by
  intro D
  induction D with
  | nil =>
      intro acc _ _
      refine ⟨rfl, rfl, rfl, (List.append_nil _).symm, rfl, rfl, rfl, rfl,
        ?_, ?_, ?_⟩
      · exact (add_zero _).symm
      · exact (add_zero _).symm
      · exact (Nat.add_zero _).symm
  | cons d D' ih =>
      intro acc hpos hg
      simp only [List.foldl_cons]
      by_cases hk : buildDetectionDedupKey d (acc.frame_id <|> acc.frame_number) ∈
          acc.registry
      · have hstep : addSummary acc d = acc := by
          unfold addSummary
          rw [if_pos hk]
        have hkept : keptOf acc (d :: D') = keptOf acc D' := by
          show (if buildDetectionDedupKey d (acc.frame_id <|> acc.frame_number) ∈
              acc.registry
            then dedupeByKey
              (fun x => buildDetectionDedupKey x (acc.frame_id <|> acc.frame_number))
              D' acc.registry
            else d :: dedupeByKey
              (fun x => buildDetectionDedupKey x (acc.frame_id <|> acc.frame_number))
              D' (buildDetectionDedupKey d (acc.frame_id <|> acc.frame_number) ::
                acc.registry)) = keptOf acc D'
          rw [if_pos hk]
          rfl
        rw [hstep, hkept]
        exact ih acc (fun x hx => hpos x (List.mem_cons_of_mem _ hx)) hg
      · have hfid : (addSummary acc d).frame_id = acc.frame_id := by
          unfold addSummary; rw [if_neg hk]
        have hfn : (addSummary acc d).frame_number = acc.frame_number := by
          unfold addSummary; rw [if_neg hk]
        have hgeo : (addSummary acc d).geometry = acc.geometry := by
          unfold addSummary; rw [if_neg hk]
        have hreg : (addSummary acc d).registry =
            buildDetectionDedupKey d (acc.frame_id <|> acc.frame_number) ::
              acc.registry := by
          unfold addSummary; rw [if_neg hk]
        have hdets : (addSummary acc d).dets = acc.dets ++ [d] := by
          unfold addSummary; rw [if_neg hk]
        have hts : ∀ t, d.gps_timestamp = some t → 0 < t := by
          intro t ht
          have := hpos d (List.mem_cons_self _ _)
          rw [ht] at this
          simpa using this
        have hgt : (addSummary acc d).globalTimestamp =
            optMin acc.globalTimestamp d.gps_timestamp := by
          unfold addSummary
          rw [if_neg hk]
          cases htd : d.gps_timestamp with
          | none => cases hcg : acc.globalTimestamp <;> rfl
          | some ts =>
              cases hcg : acc.globalTimestamp with
              | none => rfl
              | some g0 =>
                  have hg0 : 0 < g0 := hg g0 hcg
                  show (if g0 = 0 ∨ ts < g0 then some ts else some g0) =
                    some (jsMin g0 ts)
                  unfold jsMin
                  by_cases h : ts < g0
                  · rw [if_pos (Or.inr h), if_pos (le_of_lt h)]
                  · rw [if_neg (by push_neg; exact ⟨ne_of_gt hg0, not_lt.mp h⟩)]
                    by_cases he : ts ≤ g0
                    · rw [if_pos he, le_antisymm he (not_lt.mp h)]
                    · rw [if_neg he]
        have hcomp : (addSummary acc d).compressed_annotated_image_url =
            (acc.compressed_annotated_image_url <|> d.thumbnail_url) := by
          unfold addSummary; rw [if_neg hk]
          exact fillSlot_eq _ _
        have hann : (addSummary acc d).annotated_image_url =
            (acc.annotated_image_url <|>
              (d.annotated_image_url <|> d.polygon_overlay_url)) := by
          unfold addSummary; rw [if_neg hk]
          exact fillSlot2_eq _ _ _
        have horig : (addSummary acc d).original_image_url =
            (acc.original_image_url <|> d.original_frame_url) := by
          unfold addSummary; rw [if_neg hk]
          exact fillSlot_eq _ _
        have hlng : (addSummary acc d).lngSum =
            acc.lngSum + (d.coordinates.map Prod.fst).getD 0 := by
          unfold addSummary; rw [if_neg hk]
        have hlat : (addSummary acc d).latSum =
            acc.latSum + (d.coordinates.map Prod.snd).getD 0 := by
          unfold addSummary; rw [if_neg hk]
        have hcnt : (addSummary acc d).coordCount =
            acc.coordCount + (if d.coordinates.isSome then 1 else 0) := by
          unfold addSummary; rw [if_neg hk]
        have hg' : ∀ g, (addSummary acc d).globalTimestamp = some g → 0 < g := by
          rw [hgt]
          exact optMin_pos _ _ hg hts
        obtain ⟨i1, i2, i3, i4, i5, i6, i7, i8, i9, i10, i11⟩ :=
          ih (addSummary acc d)
            (fun x hx => hpos x (List.mem_cons_of_mem _ hx)) hg'
        have hkA : keptOf (addSummary acc d) D' =
            dedupeByKey
              (fun x => buildDetectionDedupKey x (acc.frame_id <|> acc.frame_number))
              D' (buildDetectionDedupKey d (acc.frame_id <|> acc.frame_number) ::
                acc.registry) := by
          unfold keptOf
          rw [hfid, hfn, hreg]
        have hkcons : keptOf acc (d :: D') =
            d :: dedupeByKey
              (fun x => buildDetectionDedupKey x (acc.frame_id <|> acc.frame_number))
              D' (buildDetectionDedupKey d (acc.frame_id <|> acc.frame_number) ::
                acc.registry) := by
          show (if buildDetectionDedupKey d (acc.frame_id <|> acc.frame_number) ∈
              acc.registry
            then dedupeByKey
              (fun x => buildDetectionDedupKey x (acc.frame_id <|> acc.frame_number))
              D' acc.registry
            else d :: dedupeByKey
              (fun x => buildDetectionDedupKey x (acc.frame_id <|> acc.frame_number))
              D' (buildDetectionDedupKey d (acc.frame_id <|> acc.frame_number) ::
                acc.registry)) = _
          rw [if_neg hk]
        refine ⟨?_, ?_, ?_, ?_, ?_, ?_, ?_, ?_, ?_, ?_, ?_⟩
        · rw [i1, hfid]
        · rw [i2, hfn]
        · rw [i3, hgeo]
        · rw [i4, hdets, hkA, hkcons, List.append_assoc]
          rfl
        · rw [i5, hkA, hgt, hkcons, List.map_cons]
          rfl
        · rw [i6, hcomp, hkA, hkcons, List.map_cons]
          rfl
        · rw [i7, hann, hkA, hkcons, List.map_cons]
          rfl
        · rw [i8, horig, hkA, hkcons, List.map_cons]
          rfl
        · rw [i9, hlng, hkA, hkcons]
          cases hc : d.coordinates with
          | none =>
              rw [List.filterMap_cons_none hc]
              simp
          | some xy =>
              rw [List.filterMap_cons_some hc, List.map_cons, List.sum_cons]
              simp only [Option.map_some', Option.getD_some]
              ring
        · rw [i10, hlat, hkA, hkcons]
          cases hc : d.coordinates with
          | none =>
              rw [List.filterMap_cons_none hc]
              simp
          | some xy =>
              rw [List.filterMap_cons_some hc, List.map_cons, List.sum_cons]
              simp only [Option.map_some', Option.getD_some]
              ring
        · rw [i11, hcnt, hkA, hkcons]
          cases hc : d.coordinates with
          | none =>
              rw [List.filterMap_cons_none hc]
              simp
          | some xy =>
              rw [List.filterMap_cons_some hc, List.length_cons]
              simp only [Option.isSome_some, if_true]
              omega

end CivicScan

namespace CivicScan

lemma mergeStep_single (k : ℤ) :
    ∀ (fs : List AggFeature) (a : FrameAcc),
      (∀ f ∈ fs, deriveFrameIdentifier f = some k) →
      fs.foldl mergeStep ([(k, a)], []) =
        ([(k, ((fs.map AggFeature.dets).flatten).foldl addSummary a)], []) := by
  intro fs
  induction fs with
  | nil => intro a _; rfl
  | cons f fs' ih =>
      intro a hall
      rw [List.foldl_cons]
      have hf : deriveFrameIdentifier f = some k := hall f (List.mem_cons_self _ _)
      have hstep : mergeStep ([(k, a)], []) f =
          ([(k, f.dets.foldl addSummary a)], []) := by
        simp [mergeStep, hf, accFind, accUpsert]
      rw [hstep, ih (f.dets.foldl addSummary a)
        (fun g hg => hall g (List.mem_cons_of_mem _ hg)),
        List.map_cons, List.flatten_cons, List.foldl_append]

lemma aggregate_single (features : List AggFeature) (k : ℤ) (A : FrameAcc)
    (h1 : features ≠ [])
    (h2 : ¬ (features.filterMap deriveFrameIdentifier).Nodup)
    (hfold : features.foldl mergeStep ([], []) = ([(k, A)], [])) :
    aggregateDetectionsByFrame features = [finalizeAcc A] := by
  unfold aggregateDetectionsByFrame
  rw [if_neg h1, if_neg h2, hfold]
  show ([(k, A)].map (fun e => finalizeAcc e.2)).insertionSort
      (fun a b => frameSortKey a < frameSortKey b) ++ [] = [finalizeAcc A]
  rw [List.append_nil]
  rfl

/-- First counterexample detection: timestamp 20. -/
def c6d1 : Det :=
  { class_name := some "a"
    gps_timestamp := some 20
    confidence := some 1 }

/-- Second counterexample detection: timestamp 30. -/
def c6d2 : Det :=
  { class_name := some "b"
    gps_timestamp := some 30 }

/-- First counterexample feature: stored globalTimestamp 5. -/
def c6f0 : AggFeature :=
  { frame_id := some 1
    globalTimestamp := some 5
    dets := [c6d1] }

/-- Second counterexample feature on the same frame. -/
def c6f1 : AggFeature :=
  { frame_id := some 1
    dets := [c6d2] }

/-- C6 as frozen is false on the code: the merged frame's globalTimestamp
is seeded from the first contributing feature's stored globalTimestamp
property, which the detection timestamps only lower further.  Here the
first feature stores globalTimestamp 5 while the two contributing
detections carry timestamps 20 and 30, so the merged feature reports 5,
not the earliest detection timestamp 20. -/
theorem claim_C6_counterexample :
    (aggregateDetectionsByFrame [c6f0, c6f1]).map AggFeature.globalTimestamp =
      [some 5] ∧
    ([c6f0, c6f1].map AggFeature.dets).flatten.filterMap Det.gps_timestamp =
      [20, 30] ∧
    some (5 : ℚ) ≠ some (20 : ℚ) :=
  ⟨by decide, by decide, by decide⟩

/-- C6 amended: when every feature of a nonempty batch shares the frame
identifier k (and at least two features contribute, so aggregation runs),
the aggregator returns exactly one merged frame feature: its detection list
is the order-preserving union-dedup of all contributing detections; its
globalTimestamp is the running minimum of the first feature's stored
globalTimestamp and the kept detections' timestamps (assuming all those
timestamps are positive, since the code's falsiness guard treats a stored 0
as absent); its geometry is the arithmetic mean of the kept detections'
coordinates when any are present, else the first feature's geometry; and
each image-URL slot keeps the first value present among the first feature's
own slot and the kept detections' corresponding URLs. -/
theorem claim_C6 (k : ℤ) (f0 : AggFeature) (fs : List AggFeature)
    (hfs : fs ≠ [])
    (hall : ∀ f ∈ f0 :: fs, deriveFrameIdentifier f = some k)
    (hpos : ∀ d ∈ ((f0 :: fs).map AggFeature.dets).flatten,
      0 < d.gps_timestamp.getD 1)
    (hg0 : 0 < f0.globalTimestamp.getD 1) :
    aggregateDetectionsByFrame (f0 :: fs) = [mergedFrameSpec k f0 fs] := by
  obtain ⟨f1, fs', rfl⟩ : ∃ f1 fs', fs = f1 :: fs' := by
    cases fs with
    | nil => exact absurd rfl hfs
    | cons a b => exact ⟨a, b, rfl⟩
  have h0 : deriveFrameIdentifier f0 = some k := hall f0 (by simp)
  have h1 : deriveFrameIdentifier f1 = some k := hall f1 (by simp)
  have hnodup : ¬ ((f0 :: f1 :: fs').filterMap deriveFrameIdentifier).Nodup := by
    intro h
    rw [List.filterMap_cons_some h0, List.filterMap_cons_some h1] at h
    exact (List.nodup_cons.mp h).1 (List.mem_cons_self _ _)
  have hstep0 : mergeStep ([], []) f0 =
      ([(k, f0.dets.foldl addSummary (initAcc k f0))], []) := by
    simp [mergeStep, h0, accFind, accUpsert]
  have hfold : (f0 :: f1 :: fs').foldl mergeStep ([], []) =
      ([(k, (((f0 :: f1 :: fs').map AggFeature.dets).flatten).foldl addSummary
        (initAcc k f0))], []) := by
    rw [List.foldl_cons, hstep0,
      mergeStep_single k (f1 :: fs') _
        (fun g hg => hall g (List.mem_cons_of_mem _ hg))]
    simp only [List.map_cons, List.flatten_cons, List.foldl_append]
  rw [aggregate_single _ k _ (List.cons_ne_nil _ _) hnodup hfold]
  have hginit : ∀ g, (initAcc k f0).globalTimestamp = some g → 0 < g := by
    intro g hgg
    have hfg : f0.globalTimestamp = some g := hgg
    rw [hfg] at hg0
    simpa using hg0
  obtain ⟨i1, i2, i3, i4, i5, i6, i7, i8, i9, i10, i11⟩ :=
    addSummary_fold (((f0 :: f1 :: fs').map AggFeature.dets).flatten)
      (initAcc k f0) hpos hginit
  have hkept : keptOf (initAcc k f0)
      (((f0 :: f1 :: fs').map AggFeature.dets).flatten) =
      keptDetections k (f0 :: f1 :: fs') := rfl
  rw [hkept] at i4 i5 i6 i7 i8 i9 i10 i11
  simp only [finalizeAcc, mergedFrameSpec]
  refine congrArg (fun x => [x]) ?_
  rw [AggFeature.mk.injEq]
  refine ⟨?_, ?_, ?_, ?_, ?_, ?_, ?_, ?_⟩
  · rw [i1]; rfl
  · rw [i2]; rfl
  · rw [i5]; rfl
  · rw [i6]; rfl
  · rw [i7]; rfl
  · rw [i8]; rfl
  · rw [i9, i10, i11, i3]
    simp only [initAcc, zero_add, Nat.zero_add, gt_iff_lt]
  · rw [i4]
    exact List.nil_append _

/-- Witness for C6 at the counterexample input: both features share frame
identifier 1, all timestamps are positive, and the merged result matches
the amended description. -/
theorem claim_C6_witness :
    aggregateDetectionsByFrame [c6f0, c6f1] = [mergedFrameSpec 1 c6f0 [c6f1]] :=
  claim_C6 1 c6f0 [c6f1] (by decide) (by decide) (by decide) (by decide)

end CivicScan
